import Mathlib

/-
  Verification development for the c-pluff plug-in framework.

  The repository contains two generations of the plug-in control code:
  * src/unnamed/part_001 — the newer, context-scoped plug-in management
    (cp_install_plugin, the two-phase resolver, start/stop, uninstall);
    modelled in namespace P1.
  * src/c-pluff/pcontrol.c — the older, global-registry plug-in control
    (use-counted descriptor handles, cp_get_plugin / cp_release_plugin);
    modelled in namespace P0.
  * src/c-pluff/libcpluff/cpluff.c — logger registration and the global
    minimum-severity cache; modelled in namespace LG.

  Modelling conventions:
  * malloc / list_create / lnode_create / hash_alloc_insert are modelled as
    always succeeding, so CP_ERR_RESOURCE paths are unreachable in the model.
  * assert(...) is compiled out in NDEBUG builds and is modelled as a no-op.
  * Recursive C functions whose termination depends on run-time flags are
    modelled with an explicit fuel argument; exhausted fuel gives `none`.
    A C pointer dereference that the model cannot represent (a list element
    naming a plug-in that is not registered) also gives `none`.
  * The external symbol loader (DLOPEN / DLSYM) is an oracle recorded in the
    plug-in descriptor (libOpens / startSymOk / stopSymOk fields).
  * kazlib hash tables and lists are modelled as association lists; the
    pointer identity of an extension point / extension object is modelled as
    the pair (owner plug-in id, index in the owner descriptor).
-/

/-- Association-list lookup keyed by strings (models kazlib hash_lookup). -/
def alook {β : Type} : List (String × β) → String → Option β
  | [], _ => none
  | (k, v) :: rest, x => if x = k then some v else alook rest x

/-- Apply `f` to every entry whose key is `x` (models mutating the record a
hash node points to; lookups only ever see the first entry). -/
def amod {β : Type} : List (String × β) → String → (β → β) → List (String × β)
  | [], _, _ => []
  | (k, v) :: rest, x, f => (k, if k = x then f v else v) :: amod rest x f

/-- Remove the first entry with key `x` (models hash_delete_free). -/
def aerase {β : Type} : List (String × β) → String → List (String × β)
  | [], _ => []
  | (k, v) :: rest, x => if x = k then rest else (k, v) :: aerase rest x

/-- Modelled from util.h's doc comment (util.c is not under src/):
cpi_ptrset_add adds a pointer to a list if it is not yet included. -/
def ptrsetAdd (l : List String) (x : String) : List String :=
  if x ∈ l then l else l ++ [x]

/-- Modelled from util.h's doc comment (util.c is not under src/):
cpi_ptrset_remove removes a pointer from a pointer set, if it is included. -/
def ptrsetRemove : List String → String → List String
  | [], _ => []
  | y :: rest, x => if y = x then rest else y :: ptrsetRemove rest x

/-- Plug-in states, in the order of the cp_plugin_state_t enumeration. -/
inductive PState
  | uninstalled
  | installed
  | resolved
  | starting
  | stopping
  | active
deriving DecidableEq, Repr

/-- Numeric value of the state in the C enumeration; the source compares
states with < and >= on these values. -/
def PState.idx : PState → Nat
  | .uninstalled => 0
  | .installed => 1
  | .resolved => 2
  | .starting => 3
  | .stopping => 4
  | .active => 5

/-- Status codes returned by the plug-in control functions. -/
inductive Status
  | ok
  | okPreliminary
  | errResource
  | errUnknown
  | errConflict
  | errDependency
  | errRuntime
deriving DecidableEq, Repr

/-- A plug-in state-change event as delivered to event listeners
(cpi_plugin_event_t). -/
structure Ev where
  pluginId : String
  oldState : PState
  newState : PState
deriving DecidableEq, Repr

/-- Version match rules (cp_version_match_t). -/
inductive VMatch
  | mnone
  | perfect
  | equivalent
  | compatible
  | greaterOrEqual
deriving DecidableEq, Repr

/-- Modelled from the spec: cpi_version_cmp (implemented in util.c, which is
not under src/). A version is the list of its dotted numeric components;
missing components are 0; the first `n` components are compared
lexicographically. -/
def versionCmp : List Nat → List Nat → Nat → Ordering
  | _, _, 0 => .eq
  | a, b, n + 1 =>
    match compare (a.headD 0) (b.headD 0) with
    | .eq => versionCmp a.tail b.tail n
    | o => o

/-- `o ≠ 0` on the int returned by cpi_version_cmp. -/
def ordNe (o : Ordering) : Bool :=
  match o with
  | .eq => false
  | _ => true

/-- `o < 0` on the int returned by cpi_version_cmp. -/
def ordLt (o : Ordering) : Bool :=
  match o with
  | .lt => true
  | _ => false

namespace P1

/-- One entry of the imports array of a plug-in descriptor
(cp_plugin_import_t). -/
structure Import where
  pluginId : String
  version : Option (List Nat)
  vmatch : VMatch
  optional : Bool
deriving DecidableEq, Repr

/-- The immutable plug-in descriptor (cp_plugin_info_t), restricted to the
fields the control code reads, together with the symbol-loader oracle:
`libOpens` is whether DLOPEN would succeed on the runtime library path and
`startSymOk` / `stopSymOk` are whether DLSYM would find the named symbols. -/
structure PluginInfo where
  identifier : String
  version : List Nat
  imports : List Import
  hasLib : Bool
  libOpens : Bool
  hasStartName : Bool
  startSymOk : Bool
  hasStopName : Bool
  stopSymOk : Bool
  startReturns : Bool
  extPoints : List String
  extensions : List String
deriving DecidableEq, Repr

/-- The registered plug-in record (cp_plugin_t). `imported = none` models a
NULL imported list; the runtime library handle and the start/stop function
pointers are modelled as presence booleans. -/
structure RPlugin where
  info : PluginInfo
  state : PState
  imported : Option (List String)
  importing : List String
  runtimeLib : Bool
  startFunc : Bool
  stopFunc : Bool
  processed : Bool
deriving DecidableEq, Repr

/-- The members of the imported list (empty when the list is NULL). -/
def RPlugin.importedL (p : RPlugin) : List String := p.imported.getD []

/-- The plug-in context state read and written by part_001: the plug-in,
extension-point and extension maps, the started-plugins list, the delivered
events, the start/stop invocation counters with their call traces, and the
descriptor use counts. -/
structure Ctx where
  plugins : List (String × RPlugin)
  extPoints : List (String × (String × Nat))
  extensions : List (String × List (String × Nat))
  started : List String
  events : List Ev
  startInv : Nat
  stopInv : Nat
  startCalls : List (String × Nat)
  stopCalls : List (String × Nat)
  infoUse : List (String × Nat)
deriving DecidableEq, Repr

/-- Dereference the registered plug-in with the given identifier. -/
def Ctx.getP (c : Ctx) (pid : String) : Option RPlugin := alook c.plugins pid

/-- Mutate the registered record with the given identifier in place. -/
def modifyP (c : Ctx) (pid : String) (f : RPlugin → RPlugin) : Ctx :=
  { c with plugins := amod c.plugins pid f }

/-- cpi_deliver_event: events are delivered synchronously, in order. -/
def deliver (c : Ctx) (e : Ev) : Ctx := { c with events := c.events ++ [e] }

/-- The recurring source idiom
`event.old_state = plugin->state; event.new_state = plugin->state = NS;
cpi_deliver_event(context, &event);`. -/
def evTrans (c : Ctx) (pid : String) (ns : PState) : Ctx :=
  match c.getP pid with
  | none => c
  | some p =>
    deliver (modifyP c pid (fun q => { q with state := ns })) ⟨pid, p.state, ns⟩

/-- cpi_inc_stop_invocation / plugin->stop_func() / cpi_dec_stop_invocation:
the call is recorded together with the counter value in force during it. -/
def stopCall (c : Ctx) (pid : String) : Ctx :=
  let c1 := { c with stopInv := c.stopInv + 1 }
  let c2 := { c1 with stopCalls := c1.stopCalls ++ [(pid, c1.stopInv)] }
  { c2 with stopInv := c2.stopInv - 1 }

/-- cpi_inc_start_invocation / plugin->start_func(...) /
cpi_dec_start_invocation. -/
def startCall (c : Ctx) (pid : String) : Ctx :=
  let c1 := { c with startInv := c.startInv + 1 }
  let c2 := { c1 with startCalls := c1.startCalls ++ [(pid, c1.startInv)] }
  { c2 with startInv := c2.startInv - 1 }

/-- Modelled from the spec: cpi_use_info (pinfo.c is not under src/);
install takes ownership of one use count on the descriptor. -/
def bumpUse (c : Ctx) (did : String) : Ctx :=
  match alook c.infoUse did with
  | some _ => { c with infoUse := amod c.infoUse did (fun n => n + 1) }
  | none => { c with infoUse := c.infoUse ++ [(did, 1)] }

/-- Modelled from the spec: cp_release_info (pinfo.c is not under src/);
releasing drops one use count on the descriptor. -/
def releaseInfo (c : Ctx) (did : String) : Ctx :=
  { c with infoUse := amod c.infoUse did (fun n => n - 1) }

/-- Remove the first list node carrying the given extension object
(the inner while loop of unregister_extensions). -/
def removeFirstExt : List (String × Nat) → (String × Nat) → List (String × Nat)
  | [], _ => []
  | e :: rest, x => if e = x then rest else e :: removeFirstExt rest x

/-- First loop of unregister_extensions: delete each extension-point entry
whose current value is still this plug-in's object. -/
def unregisterPointsFrom (c : Ctx) (pid : String) : List String → Nat → Ctx
  | [], _ => c
  | gid :: rest, i =>
    let c1 :=
      match alook c.extPoints gid with
      | some ep => if ep = (pid, i) then { c with extPoints := aerase c.extPoints gid } else c
      | none => c
    unregisterPointsFrom c1 pid rest (i + 1)

/-- Second loop of unregister_extensions: delete this plug-in's extensions
from every list, dropping a list that becomes empty. -/
def unregisterExtsFrom (c : Ctx) (pid : String) : List String → Nat → Ctx
  | [], _ => c
  | tid :: rest, i =>
    let c1 :=
      match alook c.extensions tid with
      | some el =>
        let el2 := removeFirstExt el (pid, i)
        if el2 = [] then { c with extensions := aerase c.extensions tid }
        else { c with extensions := amod c.extensions tid (fun _ => el2) }
      | none => c
    unregisterExtsFrom c1 pid rest (i + 1)

/-- unregister_extensions (part_001 lines 54-88). -/
def unregister_extensions (c : Ctx) (d : PluginInfo) : Ctx :=
  unregisterExtsFrom (unregisterPointsFrom c d.identifier d.extPoints 0) d.identifier d.extensions 0

/-- The extension-point registration loop of cp_install_plugin: stops at the
first conflicting global id (the loop guard is `status == CP_OK`). -/
def registerPoints (c : Ctx) (pid : String) : List String → Nat → Status × Ctx
  | [], _ => (.ok, c)
  | gid :: rest, i =>
    if (alook c.extPoints gid).isSome then (.errConflict, c)
    else registerPoints { c with extPoints := c.extPoints ++ [(gid, (pid, i))] } pid rest (i + 1)

/-- The extension registration loop of cp_install_plugin: append to the list
under the target extension-point id, creating the list if needed. -/
def registerExts (c : Ctx) (pid : String) : List String → Nat → Ctx
  | [], _ => c
  | tid :: rest, i =>
    let c1 :=
      match alook c.extensions tid with
      | none => { c with extensions := c.extensions ++ [(tid, [(pid, i)])] }
      | some _ => { c with extensions := amod c.extensions tid (fun el => el ++ [(pid, i)]) }
    registerExts c1 pid rest (i + 1)

/-- cp_install_plugin (part_001 lines 90-211). Note: on the failure path the
C code frees the registered record and calls unregister_extensions, but it
does not remove the record from context->plugins and it does not release the
descriptor use count taken by cpi_use_info; the model therefore keeps the
(dangling) plug-in map entry and the incremented use count. -/
def cp_install_plugin (c : Ctx) (d : PluginInfo) : Status × Ctx :=
  if (alook c.plugins d.identifier).isSome then (.errConflict, c)
  else
    let c1 := bumpUse c d.identifier
    let rp : RPlugin :=
      { info := d, state := .installed, imported := none, importing := [],
        runtimeLib := false, startFunc := false, stopFunc := false, processed := false }
    let c2 := { c1 with plugins := c1.plugins ++ [(d.identifier, rp)] }
    match registerPoints c2 d.identifier d.extPoints 0 with
    | (.ok, c3) =>
      let c4 := registerExts c3 d.identifier d.extensions 0
      (.ok, deliver c4 ⟨d.identifier, .uninstalled, .installed⟩)
    | (st, c3) => (st, unregister_extensions c3 d)

/-- unresolve_plugin_runtime: nil the start/stop pointers and close the
runtime library. -/
def unresolve_plugin_runtime (p : RPlugin) : RPlugin :=
  { p with startFunc := false, stopFunc := false, runtimeLib := false }

/-- resolve_plugin_runtime: open the runtime library (if any) through the
symbol-loader oracle and resolve the named start/stop symbols; on failure
undo with unresolve_plugin_runtime. -/
def resolve_plugin_runtime (p : RPlugin) : Status × RPlugin :=
  if p.info.hasLib = false then (.ok, p)
  else if p.info.libOpens = false then (.errRuntime, unresolve_plugin_runtime p)
  else
    let p1 := { p with runtimeLib := true }
    if p1.info.hasStartName && !p1.info.startSymOk then (.errRuntime, unresolve_plugin_runtime p1)
    else
      let p2 := { p1 with startFunc := p1.info.hasStartName }
      if p2.info.hasStopName && !p2.info.stopSymOk then (.errRuntime, unresolve_plugin_runtime p2)
      else (.ok, { p2 with stopFunc := p2.info.hasStopName })

/-- resolve_plugin_import (part_001 lines 307-369): look up the import
target, apply the version match rule when both the target and the required
version are present, and fail with CP_ERR_DEPENDENCY on a mismatch or on a
missing mandatory target. -/
def vermismatch (iv rv : List Nat) : VMatch → Bool
  | .mnone => false
  | .perfect => ordNe (versionCmp iv rv 4)
  | .equivalent => ordNe (versionCmp iv rv 2) || ordLt (versionCmp iv rv 4)
  | .compatible => ordNe (versionCmp iv rv 1) || ordLt (versionCmp iv rv 4)
  | .greaterOrEqual => ordLt (versionCmp iv rv 4)

def resolve_plugin_import (c : Ctx) (imp : Import) : Except Status (Option String) :=
  let ip? := c.getP imp.pluginId
  let mism : Bool :=
    match ip?, imp.version with
    | some ip, some rv => vermismatch ip.info.version rv imp.vmatch
    | _, _ => false
  if mism then .error .errDependency
  else
    match ip? with
    | none => if imp.optional then .ok none else .error .errDependency
    | some _ => .ok (some imp.pluginId)

/-- Record the two halves of a dependency edge together: append the target
to plugin->imported and cpi_ptrset_add the plug-in to target->importing. -/
def addEdge (c : Ctx) (pid ipid : String) : Ctx :=
  let c1 := modifyP c pid (fun p => { p with imported := some (p.importedL ++ [ipid]) })
  modifyP c1 ipid (fun q => { q with importing := ptrsetAdd q.importing pid })

/-- The import loop of resolve_plugin_prel_rec, parameterised by the
recursive call (resolve_plugin_prel_rec at the next lower fuel). -/
def importLoopA (recFn : Ctx → String → Option (Status × Ctx)) (pid : String) :
    Ctx → List Import → Option (Status × Ctx)
  | c, [] => some (.ok, c)
  | c, imp :: rest =>
    match resolve_plugin_import c imp with
    | .error st => some (st, c)
    | .ok none => importLoopA recFn pid c rest
    | .ok (some ipid) =>
      let c1 := addEdge c pid ipid
      match recFn c1 ipid with
      | none => none
      | some (s, c2) =>
        if s = .ok ∨ s = .okPreliminary then importLoopA recFn pid c2 rest
        else some (s, c2)

/-- resolve_plugin_prel_rec (part_001 lines 379-467). -/
def resolve_plugin_prel_rec : Nat → Ctx → String → Option (Status × Ctx)
  | 0, _, _ => none
  | fuel + 1, c, pid =>
    match c.getP pid with
    | none => none
    | some p =>
      if 2 ≤ p.state.idx then some (.ok, c)
      else if p.processed then some (.okPreliminary, c)
      else
        let c1 := modifyP c pid (fun q => { q with processed := true, imported := some [] })
        match importLoopA (resolve_plugin_prel_rec fuel) pid c1 p.info.imports with
        | none => none
        | some (st, c2) =>
          if st ≠ .ok then some (st, c2)
          else
            match c2.getP pid with
            | none => none
            | some p2 =>
              match resolve_plugin_runtime p2 with
              | (.ok, p3) =>
                let c3 := modifyP c2 pid (fun _ => { p3 with state := .resolved })
                some (.ok, deliver c3 ⟨pid, p2.state, .resolved⟩)
              | (st2, p3) => some (st2, modifyP c2 pid (fun _ => p3))

/-- Sequence an Option-returning recursive step over a list of plug-ins. -/
def foldOptCtx (recFn : Ctx → String → Option Ctx) : Ctx → List String → Option Ctx
  | c, [] => some c
  | c, x :: rest =>
    match recFn c x with
    | none => none
    | some c1 => foldOptCtx recFn c1 rest

/-- resolve_plugin_commit_rec (part_001 lines 476-502). -/
def resolve_plugin_commit_rec : Nat → Ctx → String → Option Ctx
  | 0, _, _ => none
  | fuel + 1, c, pid =>
    match c.getP pid with
    | none => none
    | some p =>
      if p.processed = false then some c
      else
        let c1 := modifyP c pid (fun q => { q with processed := false })
        if p.state.idx < 2 then
          match foldOptCtx (resolve_plugin_commit_rec fuel) c1 p.importedL with
          | none => none
          | some c2 => some (evTrans c2 pid .resolved)
        else some c1

/-- Drop the head edge of plugin->imported together with its reciprocal
importing entry (one iteration of the edge-removal while loops). -/
def dropHeadEdge (c : Ctx) (pid ipid : String) : Option Ctx :=
  match c.getP ipid with
  | none => none
  | some _ =>
    let c1 := modifyP c ipid (fun q => { q with importing := ptrsetRemove q.importing pid })
    some (modifyP c1 pid (fun p => { p with imported := some p.importedL.tail }))

/-- The while loop of resolve_plugin_failed_rec: recursively clean up the
head dependency, then remove both halves of the edge; when the list is
drained set plugin->imported to NULL. -/
def failedLoop (recFn : Ctx → String → Option Ctx) : Nat → Ctx → String → Option Ctx
  | 0, _, _ => none
  | n + 1, c, pid =>
    match c.getP pid with
    | none => none
    | some p =>
      match p.imported with
      | none => none
      | some [] => some (modifyP c pid (fun q => { q with imported := none }))
      | some (ipid :: _) =>
        match recFn c ipid with
        | none => none
        | some c1 =>
          match dropHeadEdge c1 pid ipid with
          | none => none
          | some c2 => failedLoop recFn n c2 pid

/-- resolve_plugin_failed_rec (part_001 lines 510-533). -/
def resolve_plugin_failed_rec : Nat → Ctx → String → Option Ctx
  | 0, _, _ => none
  | fuel + 1, c, pid =>
    match c.getP pid with
    | none => none
    | some p =>
      if p.processed = false then some c
      else
        let c1 := modifyP c pid (fun q => { q with processed := false })
        if p.state.idx < 2 then failedLoop (resolve_plugin_failed_rec fuel) (fuel + 1) c1 pid
        else some c1

/-- resolve_plugin (part_001 lines 542-552): phase 1, then commit on CP_OK /
CP_OK_PRELIMINARY or the failure walk otherwise. -/
def resolve_plugin (fuel : Nat) (c : Ctx) (pid : String) : Option (Status × Ctx) :=
  match resolve_plugin_prel_rec fuel c pid with
  | none => none
  | some (st, c1) =>
    if st = .ok ∨ st = .okPreliminary then
      match resolve_plugin_commit_rec fuel c1 pid with
      | none => none
      | some c2 => some (.ok, c2)
    else
      match resolve_plugin_failed_rec fuel c1 pid with
      | none => none
      | some c2 => some (st, c2)

/-- start_plugin_runtime (part_001 lines 563-642). -/
def start_plugin_runtime (c : Ctx) (pid : String) : Option (Status × Ctx) :=
  match c.getP pid with
  | none => none
  | some p =>
    let c2 := evTrans c pid .starting
    if p.startFunc then
      let c3 := startCall c2 pid
      if p.info.startReturns then
        let c4 := { c3 with started := c3.started ++ [pid] }
        some (.ok, evTrans c4 pid .active)
      else
        let c5 := evTrans c3 pid .stopping
        let c6 := if p.stopFunc then stopCall c5 pid else c5
        some (.errRuntime, evTrans c6 pid .resolved)
    else
      let c4 := { c2 with started := c2.started ++ [pid] }
      some (.ok, evTrans c4 pid .active)

/-- The dependency loop of start_plugin_rec: start each imported plug-in,
stopping at the first failure. -/
def startList (recFn : Ctx → String → Option (Status × Ctx)) :
    Ctx → List String → Option (Status × Ctx)
  | c, [] => some (.ok, c)
  | c, x :: rest =>
    match recFn c x with
    | none => none
    | some (.ok, c1) => startList recFn c1 rest
    | some (st, c1) => some (st, c1)

/-- start_plugin_rec (part_001 lines 651-694). -/
def start_plugin_rec : Nat → Ctx → String → Option (Status × Ctx)
  | 0, _, _ => none
  | fuel + 1, c, pid =>
    match c.getP pid with
    | none => none
    | some p =>
      if 5 ≤ p.state.idx then some (.ok, c)
      else if p.processed then some (.ok, c)
      else
        let c1 := modifyP c pid (fun q => { q with processed := true })
        match startList (start_plugin_rec fuel) c1 p.importedL with
        | none => none
        | some (.ok, c2) => start_plugin_runtime c2 pid
        | some (st, c2) => some (st, c2)

/-- reset_processed_dependencies_rec (part_001 lines 701-716). -/
def reset_processed_dependencies_rec : Nat → Ctx → String → Option Ctx
  | 0, _, _ => none
  | fuel + 1, c, pid =>
    match c.getP pid with
    | none => none
    | some p =>
      if p.processed = false then some c
      else
        let c1 := modifyP c pid (fun q => { q with processed := false })
        foldOptCtx (reset_processed_dependencies_rec fuel) c1 p.importedL

/-- cpi_start_plugin (part_001 lines 718-726). -/
def cpi_start_plugin (fuel : Nat) (c : Ctx) (pid : String) : Option (Status × Ctx) :=
  match resolve_plugin fuel c pid with
  | none => none
  | some (.ok, c1) =>
    match start_plugin_rec fuel c1 pid with
    | none => none
    | some (st, c2) =>
      match reset_processed_dependencies_rec fuel c2 pid with
      | none => none
      | some c3 => some (st, c3)
  | some (st, c1) => some (st, c1)

/-- cp_start_plugin (part_001 lines 728-748), minus locking. -/
def cp_start_plugin (fuel : Nat) (c : Ctx) (id : String) : Option (Status × Ctx) :=
  match alook c.plugins id with
  | some _ => cpi_start_plugin fuel c id
  | none => some (.errUnknown, c)

/-- stop_plugin_runtime (part_001 lines 757-778). -/
def stop_plugin_runtime (c : Ctx) (pid : String) : Option Ctx :=
  match c.getP pid with
  | none => none
  | some p =>
    let c1 := evTrans c pid .stopping
    let c2 := if p.stopFunc then stopCall c1 pid else c1
    let c3 := { c2 with started := ptrsetRemove c2.started pid }
    some (evTrans c3 pid .resolved)

/-- stop_plugin (part_001 lines 786-814): stop the depending plug-ins first,
then this plug-in. -/
def stop_plugin : Nat → Ctx → String → Option Ctx
  | 0, _, _ => none
  | fuel + 1, c, pid =>
    match c.getP pid with
    | none => none
    | some p =>
      if p.state.idx < 5 then some c
      else if p.processed then some c
      else
        let c1 := modifyP c pid (fun q => { q with processed := true })
        match foldOptCtx (stop_plugin fuel) c1 p.importing with
        | none => none
        | some c2 =>
          match stop_plugin_runtime c2 pid with
          | none => none
          | some c3 => some (modifyP c3 pid (fun q => { q with processed := false }))

/-- cp_stop_plugin (part_001 lines 816-838), minus locking. -/
def cp_stop_plugin (fuel : Nat) (c : Ctx) (id : String) : Option (Status × Ctx) :=
  match alook c.plugins id with
  | some _ =>
    match stop_plugin fuel c id with
    | none => none
    | some c1 => some (.ok, c1)
  | none => some (.errUnknown, c)

/-- cp_stop_all_plugins (part_001 lines 840-852): repeatedly stop the last
entry of started_plugins until the list is empty. -/
def cp_stop_all_plugins : Nat → Ctx → Option Ctx
  | 0, _ => none
  | fuel + 1, c =>
    match c.started.getLast? with
    | none => some c
    | some pid =>
      match stop_plugin (fuel + 1) c pid with
      | none => none
      | some c1 => cp_stop_all_plugins fuel c1

/-- The importing while loop of unresolve_plugin_rec: unresolve the first
depending plug-in until the list drains (an unresolve that removes nothing
would loop forever in C; here it exhausts the fuel). -/
def unresolveImportingLoop (recFn : Ctx → String → Option Ctx) : Nat → Ctx → String → Option Ctx
  | 0, _, _ => none
  | n + 1, c, pid =>
    match c.getP pid with
    | none => none
    | some p =>
      match p.importing with
      | [] => some c
      | q :: _ =>
        match recFn c q with
        | none => none
        | some c1 => unresolveImportingLoop recFn n c1 pid

/-- The imported while loop of unresolve_plugin_rec: remove both halves of
each edge; the drained (empty, non-NULL) list is left in place. -/
def clearImportedLoop : Nat → Ctx → String → Option Ctx
  | 0, _, _ => none
  | n + 1, c, pid =>
    match c.getP pid with
    | none => none
    | some p =>
      match p.imported with
      | none => none
      | some [] => some c
      | some (ipid :: _) =>
        match dropHeadEdge c pid ipid with
        | none => none
        | some c2 => clearImportedLoop n c2 pid

/-- unresolve_plugin_rec (part_001 lines 854-891). -/
def unresolve_plugin_rec : Nat → Ctx → String → Option Ctx
  | 0, _, _ => none
  | fuel + 1, c, pid =>
    match c.getP pid with
    | none => none
    | some p =>
      if p.state.idx < 2 then some c
      else if p.processed then some c
      else
        let c1 := modifyP c pid (fun q => { q with processed := true })
        match unresolveImportingLoop (unresolve_plugin_rec fuel) (fuel + 1) c1 pid with
        | none => none
        | some c2 =>
          let c3 := modifyP c2 pid unresolve_plugin_runtime
          match clearImportedLoop (fuel + 1) c3 pid with
          | none => none
          | some c4 =>
            let c5 := evTrans c4 pid .installed
            some (modifyP c5 pid (fun q => { q with processed := false }))

/-- unresolve_plugin (part_001 lines 899-902): stop, then unresolve. -/
def unresolve_plugin (fuel : Nat) (c : Ctx) (pid : String) : Option Ctx :=
  match stop_plugin fuel c pid with
  | none => none
  | some c1 => unresolve_plugin_rec fuel c1 pid

/-- uninstall_plugin (part_001 lines 999-1027): unresolve, emit the
UNINSTALLED event, unregister extension objects, remove the record from the
plug-in map and release the descriptor reference. -/
def uninstall_plugin (fuel : Nat) (c : Ctx) (pid : String) : Option Ctx :=
  match c.getP pid with
  | none => none
  | some p =>
    if p.state.idx ≤ 0 then some c
    else
      match unresolve_plugin fuel c pid with
      | none => none
      | some c1 =>
        let c2 := evTrans c1 pid .uninstalled
        let c3 := unregister_extensions c2 p.info
        let c4 := { c3 with plugins := aerase c3.plugins pid }
        some (releaseInfo c4 p.info.identifier)

/-- cp_uninstall_plugin (part_001 lines 1029-1049), minus locking. -/
def cp_uninstall_plugin (fuel : Nat) (c : Ctx) (id : String) : Option (Status × Ctx) :=
  match alook c.plugins id with
  | some _ =>
    match uninstall_plugin fuel c id with
    | none => none
    | some c1 => some (.ok, c1)
  | none => some (.errUnknown, c)

end P1

namespace P0

/-- An import entry as used by the old resolver (the version check is a TODO
in pcontrol.c, so only the target id and the optional flag matter). -/
structure OldImport where
  pluginId : String
  optional : Bool
deriving DecidableEq, Repr

/-- registered_plugin_t (pcontrol.c lines 34-65): the per-plug-in record,
keyed in the model by the descriptor identifier. The descriptor itself is
represented only by its identity (the key); freeing the record also frees
the descriptor. -/
structure Rec0 where
  useCount : Nat
  state : PState
  imported : Option (List String)
  importing : List String
  imports : List OldImport
  runtimeLib : Bool
  startFunc : Bool
  startReturns : Bool
  stopFunc : Bool
  activeOperation : Bool
deriving DecidableEq, Repr

/-- The global state of pcontrol.c: the live heap of registered records
(`recs`; freeing removes the entry), the identifiers present in the
`plugins` hash, the multiset of descriptor keys in the `used_plugins` hash,
the started-plugins list, the delivered events and the data-lock depth
(cpi_acquire_data / cpi_release_data). -/
structure GState where
  recs : List (String × Rec0)
  plugins : List String
  used : List String
  started : List String
  events : List Ev
  lockDepth : Nat
deriving DecidableEq, Repr

/-- Dereference the record for the given identifier. -/
def getR (g : GState) (id : String) : Option Rec0 := alook g.recs id

/-- Mutate the record for the given identifier in place. -/
def modR (g : GState) (id : String) (f : Rec0 → Rec0) : GState :=
  { g with recs := amod g.recs id f }

/-- The event-transition idiom of pcontrol.c (set state, deliver event). -/
def evT (g : GState) (id : String) (ns : PState) : GState :=
  match getR g id with
  | none => g
  | some r =>
    let g1 := modR g id (fun q => { q with state := ns })
    { g1 with events := g1.events ++ [⟨id, r.state, ns⟩] }

/-- cpi_acquire_data: counted acquisition of the global data lock. -/
def lockData (g : GState) : GState := { g with lockDepth := g.lockDepth + 1 }

/-- cpi_release_data. -/
def unlockData (g : GState) : GState := { g with lockDepth := g.lockDepth - 1 }

/-- The imported while loop shared by unresolve_preliminary_plugin,
resolve_plugin_rec's cleanup and unresolve_plugin: remove both halves of
each imported edge, then destroy and NULL the list. -/
def clearImported0 : Nat → GState → String → Option GState
  | 0, _, _ => none
  | n + 1, g, id =>
    match getR g id with
    | none => none
    | some r =>
      match r.imported with
      | none => none
      | some [] => some (modR g id (fun q => { q with imported := none }))
      | some (ipid :: _) =>
        match getR g ipid with
        | none => none
        | some _ =>
          let g1 := modR g ipid (fun q => { q with importing := ptrsetRemove q.importing id })
          let g2 := modR g1 id (fun q => { q with imported := some (q.imported.getD []).tail })
          clearImported0 n g2 id

/-- The importing while loop idiom of pcontrol.c: process the first member
of plugin->importing until the list drains. -/
def impLoop0 (recFn : GState → String → Option GState) : Nat → GState → String → Option GState
  | 0, _, _ => none
  | n + 1, g, id =>
    match getR g id with
    | none => none
    | some r =>
      match r.importing with
      | [] => some g
      | q :: _ =>
        match recFn g q with
        | none => none
        | some g1 => impLoop0 recFn n g1 id

/-- unresolve_preliminary_plugin (pcontrol.c lines 222-250). -/
def unresolve_preliminary_plugin : Nat → GState → String → Option GState
  | 0, _, _ => none
  | fuel + 1, g, id =>
    match getR g id with
    | none => none
    | some r =>
      if r.activeOperation then some g
      else
        let g1 := modR g id (fun q => { q with activeOperation := true })
        match impLoop0 (unresolve_preliminary_plugin fuel) (fuel + 1) g1 id with
        | none => none
        | some g2 =>
          let g3 := modR g2 id (fun q => { q with activeOperation := false })
          match clearImported0 (fuel + 1) g3 id with
          | none => none
          | some g4 => some (modR g4 id (fun q => { q with state := .installed }))

/-- One iteration of resolve_plugin_rec's cleanup loop over
plugin->importing: unresolve the preliminarily resolved importer and drop it
from the preliminary list if it was there. -/
def failImportingStep (fuel : Nat) (gp : GState × List String) (q : String) :
    Option (GState × List String) :=
  match unresolve_preliminary_plugin fuel gp.1 q with
  | none => none
  | some g1 => some (g1, ptrsetRemove gp.2 q)

/-- The cleanup loop of resolve_plugin_rec (pcontrol.c lines 361-369). -/
def failImportingLoop (fuel : Nat) : Nat → GState → List String → String →
    Option (GState × List String)
  | 0, _, _, _ => none
  | n + 1, g, prel, id =>
    match getR g id with
    | none => none
    | some r =>
      match r.importing with
      | [] => some (g, prel)
      | q :: _ =>
        match failImportingStep fuel (g, prel) q with
        | none => none
        | some (g1, prel1) => failImportingLoop fuel n g1 prel1 id

/-- The import loop of the old resolve_plugin_rec (pcontrol.c lines
286-337), parameterised by the recursive call. The loop guard is
`status == CP_OK || status == CP_OK_PRELIMINARY`. -/
def oldImportLoop (recFn : GState → List String → String → Option (Status × GState × List String))
    (id : String) : Status → GState → List String → List OldImport →
    Option (Status × GState × List String)
  | st, g, prel, [] => some (st, g, prel)
  | st, g, prel, imp :: rest =>
    if st ≠ .ok ∧ st ≠ .okPreliminary then some (st, g, prel)
    else
      let ipPresent := imp.pluginId ∈ g.plugins
      match (if ipPresent then recFn g prel imp.pluginId else some (.ok, g, prel)) with
      | none => none
      | some (rc, g1, prel1) =>
        if ipPresent ∧ (rc = .ok ∨ rc = .okPreliminary) then
          let g2 := modR g1 id (fun p => { p with imported := some (ptrsetAdd (p.imported.getD []) imp.pluginId) })
          let g3 := modR g2 imp.pluginId (fun q => { q with importing := ptrsetAdd q.importing id })
          let st1 := if rc = .okPreliminary then Status.okPreliminary else st
          oldImportLoop recFn id st1 g3 prel1 rest
        else if imp.optional = false then
          oldImportLoop recFn id .errDependency g1 prel1 rest
        else
          oldImportLoop recFn id st g1 prel1 rest

/-- resolve_plugin_rec (pcontrol.c lines 261-394). -/
def resolve_plugin_rec : Nat → GState → List String → String → Option (Status × GState × List String)
  | 0, _, _, _ => none
  | fuel + 1, g, prel, id =>
    match getR g id with
    | none => none
    | some r =>
      if 2 ≤ r.state.idx then some (.ok, g, prel)
      else if r.activeOperation then some (.okPreliminary, g, prel)
      else
        let g1 := modR g id (fun q => { q with imported := some [] })
        let g2 := modR g1 id (fun q => { q with activeOperation := true })
        match oldImportLoop (resolve_plugin_rec fuel) id .ok g2 prel r.imports with
        | none => none
        | some (st, g3, prel3) =>
          let stPrel := (st = .okPreliminary)
          let g4 := if stPrel then modR g3 id (fun q => { q with state := .resolved }) else g3
          let prel4 := if stPrel then ptrsetAdd prel3 id else prel3
          if st = .ok ∨ st = .okPreliminary then
            let g5 := modR g4 id (fun q => { q with activeOperation := false })
            if st = .ok then some (.ok, evT g5 id .resolved, prel4)
            else some (st, g5, prel4)
          else
            match failImportingLoop fuel (fuel + 1) g4 prel4 id with
            | none => none
            | some (g5, prel5) =>
              match clearImported0 (fuel + 1) g5 id with
              | none => none
              | some g6 =>
                some (st, modR g6 id (fun q => { q with activeOperation := false }), prel5)

/-- The drain loop of the old resolve_plugin (pcontrol.c lines 426-437):
deliver an INSTALLED → current-state event for every plug-in left in the
preliminary list. -/
def drainPreliminary (g : GState) : List String → GState
  | [] => g
  | id :: rest =>
    let g1 :=
      match getR g id with
      | none => g
      | some r => { g with events := g.events ++ [⟨id, .installed, r.state⟩] }
    drainPreliminary g1 rest

/-- resolve_plugin (pcontrol.c lines 403-443). -/
def resolve_plugin0 (fuel : Nat) (g : GState) (id : String) : Option (Status × GState) :=
  match getR g id with
  | none => none
  | some r =>
    if 2 ≤ r.state.idx then some (.ok, g)
    else
      match resolve_plugin_rec fuel g [] id with
      | none => none
      | some (st, g1, prel) =>
        let g2 := drainPreliminary g1 prel
        some ((if st = .okPreliminary then .ok else st), g2)

/-- start_plugin (pcontrol.c lines 451-515). -/
def start_plugin0 (fuel : Nat) (g : GState) (id : String) : Option (Status × GState) :=
  match getR g id with
  | none => none
  | some r =>
    if 5 ≤ r.state.idx then some (.ok, g)
    else
      match resolve_plugin0 fuel g id with
      | none => none
      | some (st, g1) =>
        if st ≠ .ok then some (st, g1)
        else
          let g2 := evT g1 id .starting
          if r.startFunc ∧ r.startReturns = false then
            let g3 := evT g2 id .stopping
            let g4 := evT g3 id .resolved
            some (.errRuntime, g4)
          else
            let g3 := { g2 with started := g2.started ++ [id] }
            some (.ok, evT g3 id .active)

/-- cp_start_plugin (pcontrol.c lines 517-536). -/
def cp_start_plugin0 (fuel : Nat) (g : GState) (id : String) : Option (Status × GState) :=
  let g1 := lockData g
  if id ∈ g1.plugins then
    match start_plugin0 fuel g1 id with
    | none => none
    | some (st, g2) => some (st, unlockData g2)
  else some (.errUnknown, unlockData g1)

/-- stop_plugin (pcontrol.c lines 543-568); the old stop has no recursion
over dependents. -/
def stop_plugin0 (g : GState) (id : String) : Option GState :=
  match getR g id with
  | none => none
  | some r =>
    if r.state.idx < 5 then some g
    else
      let g1 := evT g id .stopping
      let g2 := { g1 with started := ptrsetRemove g1.started id }
      some (evT g2 id .resolved)

/-- cp_stop_plugin (pcontrol.c lines 570-589). -/
def cp_stop_plugin0 (g : GState) (id : String) : Option (Status × GState) :=
  let g1 := lockData g
  if id ∈ g1.plugins then
    match stop_plugin0 g1 id with
    | none => none
    | some g2 => some (.ok, unlockData g2)
  else some (.errUnknown, unlockData g1)

/-- unresolve_plugin (pcontrol.c lines 610-662). -/
def unresolve_plugin0 : Nat → GState → String → Option GState
  | 0, _, _ => none
  | fuel + 1, g, id =>
    match getR g id with
    | none => none
    | some r =>
      if r.state.idx ≤ 1 then some g
      else if r.activeOperation then some g
      else
        match stop_plugin0 g id with
        | none => none
        | some g1 =>
          let g2 := modR g1 id (fun q => { q with activeOperation := true })
          match impLoop0 (unresolve_plugin0 fuel) (fuel + 1) g2 id with
          | none => none
          | some g3 =>
            let g4 := modR g3 id (fun q => { q with activeOperation := false })
            match clearImported0 (fuel + 1) g4 id with
            | none => none
            | some g5 =>
              let g6 := modR g5 id
                (fun q => { q with startFunc := false, stopFunc := false, runtimeLib := false })
              some (evT g6 id .installed)

/-- unload_plugin (pcontrol.c lines 744-771): unresolve, emit the
UNINSTALLED event, remove the id from the plugins hash, and free the record
(and with it the descriptor) only when its use count is zero. -/
def unload_plugin (fuel : Nat) (g : GState) (id : String) : Option GState :=
  match getR g id with
  | none => none
  | some r =>
    if r.state.idx ≤ 0 then some g
    else
      match unresolve_plugin0 fuel g id with
      | none => none
      | some g1 =>
        let g2 := evT g1 id .uninstalled
        let g3 := { g2 with plugins := ptrsetRemove g2.plugins id }
        match getR g3 id with
        | none => none
        | some r2 =>
          if r2.useCount = 0 then some { g3 with recs := aerase g3.recs id }
          else some g3

/-- cp_unload_plugin (pcontrol.c lines 773-790). -/
def cp_unload_plugin (fuel : Nat) (g : GState) (id : String) : Option (Status × GState) :=
  let g1 := lockData g
  if id ∈ g1.plugins then
    match unload_plugin fuel g1 id with
    | none => none
    | some g2 => some (.ok, unlockData g2)
  else some (.errUnknown, unlockData g1)

/-- cp_get_plugin (pcontrol.c lines 807-838): hand out a descriptor handle,
inserting the record into used_plugins and incrementing its use count. -/
def cp_get_plugin (g : GState) (id : String) : Option (Option String × Status × GState) :=
  let g1 := lockData g
  if id ∈ g1.plugins then
    match getR g1 id with
    | none => none
    | some _ =>
      let g2 := { g1 with used := g1.used ++ [id] }
      let g3 := modR g2 id (fun q => { q with useCount := q.useCount + 1 })
      some (some id, .ok, unlockData g3)
  else some (none, .errUnknown, unlockData g1)

/-- cp_release_plugin (pcontrol.c lines 840-863). Note: on the path where
the plug-in is not in used_plugins the C function returns after logging an
error without calling cpi_release_data, so the data lock stays acquired. -/
def cp_release_plugin (g : GState) (id : String) : Option GState :=
  let g1 := lockData g
  if id ∈ g1.used then
    match getR g1 id with
    | none => none
    | some r =>
      let g2 := modR g1 id (fun q => { q with useCount := q.useCount - 1 })
      let g3 :=
        if r.useCount - 1 = 0 then
          let gA := { g2 with used := ptrsetRemove g2.used id }
          if r.state = .uninstalled then { gA with recs := aerase gA.recs id } else gA
        else g2
      some (unlockData g3)
  else some g1

end P0

namespace LG

/-- logger_t (cpluff.c lines 36-49): the logger function identity, its user
data, the minimum severity and the context filter. Function pointers and
context pointers are modelled by opaque numbers. -/
structure Logger where
  fn : Nat
  userData : Nat
  minSeverity : Int
  ctxRule : Option Nat
deriving DecidableEq, Repr

/-- The logging state of cpluff.c: the registered loggers and the global
minimum-severity cache (CP_LOG_NONE = 1000 when there are no loggers). -/
structure LState where
  loggers : List Logger
  logMinSeverity : Int
deriving DecidableEq, Repr

/-- list_find with comp_logger: the first holder with this logger function. -/
def findLogger : List Logger → Nat → Option Logger
  | [], _ => none
  | lh :: rest, fn => if lh.fn = fn then some lh else findLogger rest fn

/-- Update the first holder with this logger function in place. -/
def updateLogger : List Logger → Nat → Logger → List Logger
  | [], _, _ => []
  | lh :: rest, fn, nv => if lh.fn = fn then nv :: rest else lh :: updateLogger rest fn nv

/-- Remove the first holder with this logger function. -/
def removeLogger : List Logger → Nat → List Logger
  | [], _ => []
  | lh :: rest, fn => if lh.fn = fn then rest else lh :: removeLogger rest fn

/-- update_logging_limits (cpluff.c lines 188-201): scan the loggers for the
least minimum severity, starting from CP_LOG_NONE. -/
def update_logging_limits (l : List Logger) : Int :=
  l.foldl (fun nms lh => if lh.minSeverity < nms then lh.minSeverity else nms) 1000

/-- cp_add_logger (cpluff.c lines 209-250): an already-registered logger
function is updated in place (minimum severity and context rule; the user
data is set only on creation); otherwise a new holder is appended. The
global limits are recomputed either way. -/
def cp_add_logger (s : LState) (fn ud : Nat) (minSev : Int) (rule : Option Nat) : LState :=
  let ls :=
    match findLogger s.loggers fn with
    | none => s.loggers ++ [⟨fn, ud, minSev, rule⟩]
    | some lh => updateLogger s.loggers fn { lh with minSeverity := minSev, ctxRule := rule }
  { loggers := ls, logMinSeverity := update_logging_limits ls }

/-- cp_remove_logger (cpluff.c lines 252-267). -/
def cp_remove_logger (s : LState) (fn : Nat) : LState :=
  match findLogger s.loggers fn with
  | none => s
  | some _ =>
    let ls := removeLogger s.loggers fn
    { loggers := ls, logMinSeverity := update_logging_limits ls }

/-- severity >= lh->min_severity. -/
def minSeverity_le (lh : Logger) (severity : Int) : Bool := lh.minSeverity ≤ severity

/-- log (cpluff.c lines 269-283): the logger functions that receive the
message, in registration order. -/
def logDeliver (s : LState) (ctx : Option Nat) (severity : Int) : List Nat :=
  (s.loggers.filter
    (fun lh => minSeverity_le lh severity && (lh.ctxRule == none || ctx == lh.ctxRule))).map
    (fun lh => lh.fn)

/-- cpi_log / cpi_logf (cpluff.c lines 285-302): the message is formatted
and delivered only when its severity reaches the global cache. -/
def cpi_log (s : LState) (ctx : Option Nat) (severity : Int) : List Nat :=
  if s.logMinSeverity ≤ severity then logDeliver s ctx severity else []

/-- Whether cpi_logf would format the message at all. -/
def logFormatted (s : LState) (severity : Int) : Bool := s.logMinSeverity ≤ severity

/-- The cache is the least minimum severity among the registered loggers:
it never exceeds the no-logging sentinel 1000, it bounds every registered
minimum severity from below, it is exactly 1000 when no logger is
registered, and when loggers are registered with minimum severities in the
valid range (at most 1000) it is attained by one of them. -/
def cacheLeast (s : LState) : Prop :=
  s.logMinSeverity ≤ 1000 ∧
  (∀ lh, lh ∈ s.loggers → s.logMinSeverity ≤ lh.minSeverity) ∧
  (s.loggers = [] → s.logMinSeverity = 1000) ∧
  ((∀ lh, lh ∈ s.loggers → lh.minSeverity ≤ 1000) → s.loggers ≠ [] →
    ∃ lh, lh ∈ s.loggers ∧ s.logMinSeverity = lh.minSeverity)

end LG

/-
  Spec-side definitions and invariants.
-/

/-- The spec's version-match failure predicate, written from the spec text
(§4.2 "Version match predicate"): the predicate fails iff
perfect: cmp(a,b,4) ≠ 0; equivalent: cmp(a,b,2) ≠ 0 or cmp(a,b,4) < 0;
compatible: cmp(a,b,1) ≠ 0 or cmp(a,b,4) < 0; greater-or-equal:
cmp(a,b,4) < 0; none: never. -/
def specVersionMatchFails (a b : List Nat) : VMatch → Prop
  | .mnone => False
  | .perfect => versionCmp a b 4 ≠ .eq
  | .equivalent => versionCmp a b 2 ≠ .eq ∨ versionCmp a b 4 = .lt
  | .compatible => versionCmp a b 1 ≠ .eq ∨ versionCmp a b 4 = .lt
  | .greaterOrEqual => versionCmp a b 4 = .lt

namespace P1

/-- The edge-relevant projection of a registered record: the imported set,
the importing set and the declared import targets. -/
def eproj (p : RPlugin) : List String × List String × List String :=
  (p.importedL, p.importing, p.info.imports.map Import.pluginId)

/-- Two contexts with the same registered identifiers and the same
edge-relevant projection everywhere. -/
def Shp (c c1 : Ctx) : Prop :=
  c1.plugins.map Prod.fst = c.plugins.map Prod.fst ∧
  ∀ x, (c1.getP x).map eproj = (c.getP x).map eproj

/-- The import-graph invariant of the claim: registered identifiers are
unique, imported / importing sets and declared import targets contain no
duplicates, and the imported / importing edges are mutual inverses
(for every pair of registered plug-ins P, Q: Q ∈ P.imported iff
P ∈ Q.importing). -/
def Inv (c : Ctx) : Prop :=
  (c.plugins.map Prod.fst).Nodup ∧
  (∀ pid p, c.getP pid = some p →
    p.importedL.Nodup ∧ p.importing.Nodup ∧ (p.info.imports.map Import.pluginId).Nodup) ∧
  (∀ pid p qid q, c.getP pid = some p → c.getP qid = some q →
    (qid ∈ p.importedL ↔ pid ∈ q.importing))

/-- Outside of transitions an unresolved, unvisited plug-in has no imported
edges (its imported list is NULL or empty). -/
def Pc (c : Ctx) : Prop :=
  ∀ pid p, c.getP pid = some p → p.processed = false → p.state.idx < 2 → p.importedL = []

/-- The rest-state hypothesis of the resolver lemmas. -/
def MidInv (c : Ctx) : Prop := Inv c ∧ Pc c

/-- Frame property of the preliminary pass: a plug-in already marked
processed keeps its imported set, processed flag, state and descriptor. -/
def Frame (c c1 : Ctx) : Prop :=
  ∀ x px, c.getP x = some px → px.processed = true →
    ∃ px1, c1.getP x = some px1 ∧ px1.importedL = px.importedL ∧ px1.processed = true ∧
      px1.state = px.state ∧ px1.info = px.info

/-- Frame with the actively processed plug-in exempted. -/
def FrameX (pid : String) (c c1 : Ctx) : Prop :=
  ∀ x px, x ≠ pid → c.getP x = some px → px.processed = true →
    ∃ px1, c1.getP x = some px1 ∧ px1.importedL = px.importedL ∧ px1.processed = true ∧
      px1.state = px.state ∧ px1.info = px.info

/-- Frame property of the failure walk: a plug-in not marked processed
keeps its imported list, processed flag, state and descriptor (only its
importing set may shrink). -/
def FrameF (c c1 : Ctx) : Prop :=
  ∀ x px, c.getP x = some px → px.processed = false →
    ∃ px1, c1.getP x = some px1 ∧ px1.imported = px.imported ∧ px1.processed = false ∧
      px1.state = px.state ∧ px1.info = px.info

/-- Frame property of the failure walk with the plug-in under cleanup
exempted. -/
def FrameFX (pid : String) (c c1 : Ctx) : Prop :=
  ∀ x px, x ≠ pid → c.getP x = some px → px.processed = false →
    ∃ px1, c1.getP x = some px1 ∧ px1.imported = px.imported ∧ px1.processed = false ∧
      px1.state = px.state ∧ px1.info = px.info

/-- Executable check implying `Inv`. -/
def InvCheck (c : Ctx) : Bool :=
  decide (c.plugins.map Prod.fst).Nodup &&
  c.plugins.all (fun pr =>
    decide pr.2.importedL.Nodup && decide pr.2.importing.Nodup &&
    decide (pr.2.info.imports.map Import.pluginId).Nodup) &&
  c.plugins.all (fun pr => c.plugins.all (fun qr =>
    decide ((qr.1 ∈ pr.2.importedL) ↔ (pr.1 ∈ qr.2.importing))))

/-- Executable check implying `Pc`. -/
def PcCheck (c : Ctx) : Bool :=
  c.plugins.all (fun pr =>
    pr.2.processed || decide (2 ≤ pr.2.state.idx) || decide (pr.2.importedL = []))

/-- `b` occurs strictly after `a` in the list `l`. -/
def laterIn (l : List String) (a b : String) : Prop :=
  ∀ l₁ l₂, l = l₁ ++ a :: l₂ → b ∈ l₂

/-- The rest-state hypothesis for stop-all: the started list has no
duplicates and consists exactly of the ACTIVE plug-ins (each unvisited),
and every started plug-in's registered importers that are started come
strictly later in the start order. -/
def StopWF (c : Ctx) : Prop :=
  c.started.Nodup ∧
  (∀ pid, pid ∈ c.started →
    ∃ p, c.getP pid = some p ∧ p.state = .active ∧ p.processed = false) ∧
  (∀ pid p, c.getP pid = some p → p.state = .active → pid ∈ c.started) ∧
  (∀ pid p, c.getP pid = some p → pid ∈ c.started → ∀ q, q ∈ p.importing →
    (c.getP q).isSome ∧ (q ∈ c.started → laterIn c.started pid q))

/-- The pair of events emitted for each plug-in stopped by stop-all, in
stop order. -/
def stopEvs : List String → List Ev
  | [] => []
  | pid :: rest => ⟨pid, .active, .stopping⟩ :: ⟨pid, .stopping, .resolved⟩ :: stopEvs rest

end P1

/-
  Concrete fixtures used by the closed theorems and the witnesses.
-/

/-- A mandatory import with no version requirement. -/
def impNone (t : String) : P1.Import :=
  { pluginId := t, version := none, vmatch := .mnone, optional := false }

/-- Descriptor of a cycle member: one mandatory import and a runtime
library whose DLOPEN outcome is `opens`. -/
def cycInfo (id imp : String) (opens : Bool) : P1.PluginInfo :=
  { identifier := id, version := [], imports := [impNone imp], hasLib := true, libOpens := opens,
    hasStartName := false, startSymOk := false, hasStopName := false, stopSymOk := false,
    startReturns := true, extPoints := [], extensions := [] }

/-- A freshly installed registered record for a descriptor. -/
def freshRP (d : P1.PluginInfo) : P1.RPlugin :=
  { info := d, state := .installed, imported := none, importing := [], runtimeLib := false,
    startFunc := false, stopFunc := false, processed := false }

/-- Context with the circular pair a ↔ b installed; `aOpens` / `bOpens` are
the DLOPEN outcomes for the two runtime libraries. -/
def cycleCtx (aOpens bOpens : Bool) : P1.Ctx :=
  { plugins := [("a", freshRP (cycInfo "a" "b" aOpens)), ("b", freshRP (cycInfo "b" "a" bOpens))],
    extPoints := [], extensions := [], started := [], events := [], startInv := 0, stopInv := 0,
    startCalls := [], stopCalls := [], infoUse := [("a", 1), ("b", 1)] }

/-- The empty plug-in context. -/
def emptyCtx : P1.Ctx :=
  { plugins := [], extPoints := [], extensions := [], started := [], events := [],
    startInv := 0, stopInv := 0, startCalls := [], stopCalls := [], infoUse := [] }

/-- A descriptor with extension points and extensions only. -/
def epInfo (id : String) (eps exts : List String) : P1.PluginInfo :=
  { identifier := id, version := [], imports := [], hasLib := false, libOpens := false,
    hasStartName := false, startSymOk := false, hasStopName := false, stopSymOk := false,
    startReturns := true, extPoints := eps, extensions := exts }

/-- Context after installing plug-in a with extension point a.ep. -/
def epCtxA : P1.Ctx := (P1.cp_install_plugin emptyCtx (epInfo "a" ["a.ep"] [])).2

/-- Descriptor of plug-in b: a fresh extension point, an extension point
whose global id conflicts with a.ep, and one extension. -/
def epInfoB : P1.PluginInfo := epInfo "b" ["b.ok", "a.ep"] ["a.ep"]

/-- Descriptor of a plug-in with version 1.2.3.4 and no imports. -/
def verInfo : P1.PluginInfo :=
  { identifier := "a", version := [1, 2, 3, 4], imports := [], hasLib := false, libOpens := false,
    hasStartName := false, startSymOk := false, hasStopName := false, stopSymOk := false,
    startReturns := true, extPoints := [], extensions := [] }

/-- Context with verInfo installed. -/
def verCtx : P1.Ctx :=
  { plugins := [("a", freshRP verInfo)], extPoints := [], extensions := [], started := [],
    events := [], startInv := 0, stopInv := 0, startCalls := [], stopCalls := [],
    infoUse := [("a", 1)] }

/-- An import of a requiring version 1.3 under the equivalent rule
(spec scenario 3). -/
def verImp : P1.Import :=
  { pluginId := "a", version := some [1, 3], vmatch := .equivalent, optional := false }

/-- Descriptor whose start function reports failure. -/
def startFailInfo : P1.PluginInfo :=
  { identifier := "a", version := [], imports := [], hasLib := true, libOpens := true,
    hasStartName := true, startSymOk := true, hasStopName := true, stopSymOk := true,
    startReturns := false, extPoints := [], extensions := [] }

/-- The resolved registered record of the start-failing plug-in. -/
def startFailRec : P1.RPlugin :=
  { info := startFailInfo, state := .resolved, imported := some [], importing := [],
    runtimeLib := true, startFunc := true, stopFunc := true, processed := false }

/-- Context with the start-failing plug-in resolved (start and stop
functions bound). -/
def startFailCtx : P1.Ctx :=
  { plugins := [("a", startFailRec)],
    extPoints := [], extensions := [], started := [], events := [], startInv := 0, stopInv := 0,
    startCalls := [], stopCalls := [], infoUse := [("a", 1)] }

/-- Context with one plug-in a already ACTIVE and started. -/
def activeCtx : P1.Ctx :=
  { plugins := [("a",
      { info := epInfo "a" [] [], state := .active, imported := some [], importing := [],
        runtimeLib := false, startFunc := false, stopFunc := false, processed := false })],
    extPoints := [], extensions := [], started := ["a"], events := [], startInv := 0, stopInv := 0,
    startCalls := [], stopCalls := [], infoUse := [("a", 1)] }

/-- Context with the resolved pair: b imports a, both RESOLVED, no plug-in
active. -/
def pairCtx : P1.Ctx :=
  { plugins := [("a",
      { info := epInfo "a" [] [], state := .resolved, imported := some [], importing := ["b"],
        runtimeLib := false, startFunc := false, stopFunc := false, processed := false }),
     ("b",
      { info := { epInfo "b" [] [] with imports := [impNone "a"] }, state := .resolved,
        imported := some ["a"], importing := [], runtimeLib := false, startFunc := false,
        stopFunc := false, processed := false })],
    extPoints := [], extensions := [], started := [], events := [], startInv := 0, stopInv := 0,
    startCalls := [], stopCalls := [], infoUse := [("a", 1), ("b", 1)] }

/-- An installed record in the old (pcontrol.c) model with one outstanding
descriptor handle. -/
def handleRec : P0.Rec0 :=
  { useCount := 1, state := .installed, imported := none, importing := [], imports := [],
    runtimeLib := false, startFunc := false, startReturns := true, stopFunc := false,
    activeOperation := false }

/-- Old-model state: plug-in a installed, one handle held by the host. -/
def handleG : P0.GState :=
  { recs := [("a", handleRec)], plugins := ["a"], used := ["a"], started := [], events := [],
    lockDepth := 0 }

/-- Old-model state: plug-in a installed, no handle held. -/
def noUseG : P0.GState :=
  { recs := [("a", handleRec)], plugins := ["a"], used := [], started := [], events := [],
    lockDepth := 0 }

/-- A logging state with two registered loggers. -/
def lgS : LG.LState :=
  { loggers := [⟨1, 10, 2, none⟩, ⟨2, 20, 0, some 7⟩], logMinSeverity := 0 }

/-
  Basic lemmas about the association-list and pointer-set primitives.
-/

theorem alook_amod_self {β : Type} (l : List (String × β)) (k : String) (f : β → β) :
    alook (amod l k f) k = (alook l k).map f := by
  induction l with
  | nil => rfl
  | cons hd tl ih =>
    obtain ⟨a, b⟩ := hd
    simp only [amod, alook]
    by_cases h : k = a
    · subst h; simp
    · simp [h, fun hh : a = k => h hh.symm, ih]

theorem alook_amod_ne {β : Type} (l : List (String × β)) (k x : String) (f : β → β)
    (h : x ≠ k) : alook (amod l k f) x = alook l x := by
  induction l with
  | nil => rfl
  | cons hd tl ih =>
    obtain ⟨a, b⟩ := hd
    simp only [amod, alook]
    by_cases hx : x = a
    · subst hx; simp [fun hh : x = k => h hh, h]
    · simp [hx, ih]

theorem keys_amod {β : Type} (l : List (String × β)) (k : String) (f : β → β) :
    (amod l k f).map Prod.fst = l.map Prod.fst := by
  induction l with
  | nil => rfl
  | cons hd tl ih =>
    obtain ⟨a, b⟩ := hd
    simp [amod, ih]

theorem alook_eq_some_mem {β : Type} {l : List (String × β)} {x : String} {v : β}
    (h : alook l x = some v) : (x, v) ∈ l := by
  induction l with
  | nil => simp [alook] at h
  | cons hd tl ih =>
    obtain ⟨a, b⟩ := hd
    by_cases hx : x = a
    · subst hx
      simp [alook] at h
      simp [h]
    · simp [alook, hx] at h
      exact List.mem_cons_of_mem _ (ih h)

theorem alook_eq_none_of_not_mem {β : Type} {l : List (String × β)} {x : String}
    (h : x ∉ l.map Prod.fst) : alook l x = none := by
  induction l with
  | nil => rfl
  | cons hd tl ih =>
    obtain ⟨a, b⟩ := hd
    simp only [List.map_cons, List.mem_cons, not_or] at h
    simp only [alook]
    rw [if_neg h.1]
    exact ih h.2

theorem mem_alook_nodup {β : Type} {l : List (String × β)} {x : String} {v : β}
    (hnd : (l.map Prod.fst).Nodup) (h : (x, v) ∈ l) : alook l x = some v := by
  induction l with
  | nil => simp at h
  | cons hd tl ih =>
    obtain ⟨a, b⟩ := hd
    simp only [List.map_cons, List.nodup_cons] at hnd
    rcases List.mem_cons.mp h with h1 | h1
    · cases h1
      simp [alook]
    · have hxa : x ≠ a := by
        intro he
        subst he
        exact hnd.1 (List.mem_map_of_mem Prod.fst h1)
      simp only [alook]
      rw [if_neg hxa]
      exact ih hnd.2 h1

theorem alook_aerase_ne {β : Type} (l : List (String × β)) (k x : String) (h : x ≠ k) :
    alook (aerase l k) x = alook l x := by
  induction l with
  | nil => rfl
  | cons hd tl ih =>
    obtain ⟨a, b⟩ := hd
    simp only [aerase]
    by_cases ha : k = a
    · rw [if_pos ha]
      subst ha
      simp only [alook]
      rw [if_neg h]
    · rw [if_neg ha]
      simp only [alook]
      by_cases hx : x = a
      · rw [if_pos hx, if_pos hx]
      · rw [if_neg hx, if_neg hx]
        exact ih

theorem alook_aerase_self {β : Type} (l : List (String × β)) (k : String)
    (hnd : (l.map Prod.fst).Nodup) : alook (aerase l k) k = none := by
  induction l with
  | nil => rfl
  | cons hd tl ih =>
    obtain ⟨a, b⟩ := hd
    simp only [List.map_cons, List.nodup_cons] at hnd
    simp only [aerase]
    by_cases ha : k = a
    · rw [if_pos ha]
      subst ha
      exact alook_eq_none_of_not_mem hnd.1
    · rw [if_neg ha]
      simp only [alook]
      rw [if_neg ha]
      exact ih hnd.2

theorem keys_aerase_sublist {β : Type} (l : List (String × β)) (k : String) :
    List.Sublist ((aerase l k).map Prod.fst) (l.map Prod.fst) := by
  induction l with
  | nil => simp [aerase]
  | cons hd tl ih =>
    obtain ⟨a, b⟩ := hd
    simp only [aerase]
    by_cases ha : k = a
    · rw [if_pos ha]
      simp only [List.map_cons]
      exact List.sublist_cons_self a (tl.map Prod.fst)
    · rw [if_neg ha]
      simp only [List.map_cons]
      exact ih.cons₂ a

theorem ptrsetRemove_sublist (l : List String) (x : String) :
    List.Sublist (ptrsetRemove l x) l := by
  induction l with
  | nil => simp [ptrsetRemove]
  | cons y tl ih =>
    simp only [ptrsetRemove]
    by_cases h : y = x
    · rw [if_pos h]
      exact List.sublist_cons_self y tl
    · rw [if_neg h]
      exact ih.cons₂ y

theorem nodup_ptrsetRemove {l : List String} (x : String) (h : l.Nodup) :
    (ptrsetRemove l x).Nodup := h.sublist (ptrsetRemove_sublist l x)

theorem mem_of_mem_ptrsetRemove {l : List String} {x a : String}
    (h : a ∈ ptrsetRemove l x) : a ∈ l := (ptrsetRemove_sublist l x).mem h

theorem ptrsetRemove_eq_of_not_mem {l : List String} {x : String} (h : x ∉ l) :
    ptrsetRemove l x = l := by
  induction l with
  | nil => rfl
  | cons y tl ih =>
    simp at h
    simp [ptrsetRemove, Ne.symm h.1, ih h.2]

theorem ptrsetRemove_concat {l : List String} {x : String} (h : x ∉ l) :
    ptrsetRemove (l ++ [x]) x = l := by
  induction l with
  | nil => simp [ptrsetRemove]
  | cons y tl ih =>
    simp at h
    simp [ptrsetRemove, Ne.symm h.1, ih h.2]

theorem mem_ptrsetRemove_iff {l : List String} (x a : String) (hnd : l.Nodup) :
    a ∈ ptrsetRemove l x ↔ a ∈ l ∧ a ≠ x := by
  induction l with
  | nil => simp [ptrsetRemove]
  | cons y tl ih =>
    rw [List.nodup_cons] at hnd
    simp only [ptrsetRemove]
    by_cases h : y = x
    · rw [if_pos h]
      subst h
      constructor
      · intro hm
        exact ⟨List.mem_cons_of_mem _ hm, fun he => hnd.1 (he ▸ hm)⟩
      · rintro ⟨hm, hne⟩
        rcases List.mem_cons.mp hm with he | hm2
        · exact absurd he hne
        · exact hm2
    · rw [if_neg h, List.mem_cons, List.mem_cons, ih hnd.2]
      constructor
      · rintro (rfl | ⟨hm, hne⟩)
        · exact ⟨Or.inl rfl, h⟩
        · exact ⟨Or.inr hm, hne⟩
      · rintro ⟨rfl | hm, hne⟩
        · exact Or.inl rfl
        · exact Or.inr ⟨hm, hne⟩

theorem mem_ptrsetAdd_iff (l : List String) (x a : String) :
    a ∈ ptrsetAdd l x ↔ a ∈ l ∨ a = x := by
  unfold ptrsetAdd
  by_cases h : x ∈ l
  · simp [h]
    intro he; subst he; exact h
  · simp [h]

theorem nodup_ptrsetAdd {l : List String} (x : String) (h : l.Nodup) :
    (ptrsetAdd l x).Nodup := by
  unfold ptrsetAdd
  by_cases hm : x ∈ l
  · simpa [hm] using h
  · simp [hm]
    exact List.Nodup.append h (List.nodup_singleton x) (by simpa using hm)

theorem P1.getP_modifyP_self (c : P1.Ctx) (k : String) (f : P1.RPlugin → P1.RPlugin) :
    (P1.modifyP c k f).getP k = (c.getP k).map f :=
  alook_amod_self c.plugins k f

theorem P1.getP_modifyP_ne (c : P1.Ctx) (k x : String) (f : P1.RPlugin → P1.RPlugin)
    (h : x ≠ k) : (P1.modifyP c k f).getP x = c.getP x :=
  alook_amod_ne c.plugins k x f h

theorem ordNe_eq_true (o : Ordering) : ordNe o = true ↔ o ≠ .eq := by
  cases o <;> simp [ordNe]

theorem ordLt_eq_true (o : Ordering) : ordLt o = true ↔ o = .lt := by
  cases o <;> simp [ordLt]

theorem vermismatch_iff_spec (a b : List Nat) (m : VMatch) :
    P1.vermismatch a b m = true ↔ specVersionMatchFails a b m := by
  cases m <;>
    simp [P1.vermismatch, specVersionMatchFails, Bool.or_eq_true, ordNe_eq_true, ordLt_eq_true]

/-- C3: for an installed candidate with version `a` and an import with
required version `b`, resolve_plugin_import fails with the Dependency error
exactly when the spec's version-match predicate fails (perfect:
cmp(a,b,4) ≠ 0; equivalent: cmp(a,b,2) ≠ 0 or cmp(a,b,4) < 0; compatible:
cmp(a,b,1) ≠ 0 or cmp(a,b,4) < 0; greater-or-equal: cmp(a,b,4) < 0; none:
never), and otherwise returns the imported plug-in. -/
theorem resolve_import_version_match (c : P1.Ctx) (imp : P1.Import) (ip : P1.RPlugin)
    (rv : List Nat) (h1 : c.getP imp.pluginId = some ip) (h2 : imp.version = some rv) :
    (P1.resolve_plugin_import c imp = .error .errDependency ↔
      specVersionMatchFails ip.info.version rv imp.vmatch) ∧
    (¬ specVersionMatchFails ip.info.version rv imp.vmatch →
      P1.resolve_plugin_import c imp = .ok (some imp.pluginId)) := by
  by_cases hm : P1.vermismatch ip.info.version rv imp.vmatch = true
  · have hs := (vermismatch_iff_spec ip.info.version rv imp.vmatch).mp hm
    simp [P1.resolve_plugin_import, h1, h2, hm, hs]
  · have hmf : P1.vermismatch ip.info.version rv imp.vmatch = false :=
      Bool.eq_false_iff.mpr hm
    have hs : ¬ specVersionMatchFails ip.info.version rv imp.vmatch := fun hh =>
      hm ((vermismatch_iff_spec ip.info.version rv imp.vmatch).mpr hh)
    simp [P1.resolve_plugin_import, h1, h2, hmf, hs]

/-- Witness for resolve_import_version_match: plug-in a has version 1.2.3.4
and the import requires 1.3 under rule equivalent (spec scenario 3), which
mismatches, so the import resolves to the Dependency error. -/
theorem resolve_import_version_match_witness :
    P1.resolve_plugin_import verCtx verImp = .error .errDependency ∧
    specVersionMatchFails [1, 2, 3, 4] [1, 3] .equivalent :=
  ⟨(resolve_import_version_match verCtx verImp (freshRP verInfo) [1, 3] rfl rfl).1.mpr
      ((vermismatch_iff_spec (freshRP verInfo).info.version [1, 3] verImp.vmatch).mp (by decide)),
    (vermismatch_iff_spec [1, 2, 3, 4] [1, 3] .equivalent).mp (by decide)⟩

/-- C9: calling start on a plug-in already in state ACTIVE (outside of any
transition, so its processed flag is clear) returns OK with the context
completely unchanged: no state change, no event, started-plugins unchanged;
hence a second start(P) is a no-op. -/
theorem start_active_plugin_noop (f : Nat) (c : P1.Ctx) (pid : String) (p : P1.RPlugin)
    (h1 : c.getP pid = some p) (h2 : p.state = .active) (h3 : p.processed = false) :
    P1.cpi_start_plugin (f + 1) c pid = some (.ok, c) := by
  have hidx : (2 : Nat) ≤ p.state.idx := by rw [h2]; decide
  have hidx5 : (5 : Nat) ≤ p.state.idx := by rw [h2]; decide
  simp [P1.cpi_start_plugin, P1.resolve_plugin, P1.resolve_plugin_prel_rec,
    P1.resolve_plugin_commit_rec, P1.start_plugin_rec, P1.reset_processed_dependencies_rec,
    h1, h3, hidx, hidx5]

/-- Witness for start_active_plugin_noop at the concrete active context. -/
theorem start_active_plugin_noop_witness :
    P1.cpi_start_plugin 5 activeCtx "a" = some (.ok, activeCtx) :=
  start_active_plugin_noop 4 activeCtx "a"
    { info := epInfo "a" [] [], state := .active, imported := some [], importing := [],
      runtimeLib := false, startFunc := false, stopFunc := false, processed := false }
    rfl rfl rfl

/-- C1 (divergence): on the circular pair a ↔ b with mandatory imports,
when both runtime bindings succeed resolve(a) resolves both with exactly one
INSTALLED→RESOLVED event per plug-in; but when a's runtime library fails to
open while b's succeeds, resolve(a) returns the Runtime error with b left in
state RESOLVED and the edge b→a (b.imported = [a], a.importing = [b]) still
recorded, instead of rolling both preliminarily processed plug-ins back to
INSTALLED with all edges removed as the claim states. -/
theorem resolve_cycle_divergence :
    ((P1.resolve_plugin 8 (cycleCtx true true) "a").map
        (fun r => (r.1, r.2.events,
          (r.2.getP "a").map (fun p => p.state),
          (r.2.getP "b").map (fun p => p.state))) =
      some (.ok,
        [⟨"b", .installed, .resolved⟩, ⟨"a", .installed, .resolved⟩],
        some .resolved, some .resolved)) ∧
    ((P1.resolve_plugin 8 (cycleCtx false true) "a").map
        (fun r => (r.1,
          (r.2.getP "a").map (fun p => (p.state, p.imported, p.importing)),
          (r.2.getP "b").map (fun p => (p.state, p.imported, p.importing)))) =
      some (.errRuntime,
        some (.installed, none, ["b"]),
        some (.resolved, some ["a"], []))) :=
  ⟨rfl, rfl⟩

/-- C2 (divergence): installing plug-in b whose extension point collides
with the already-registered a.ep returns Conflict and rolls back the
extension-point and extension maps, but leaves the (freed) record for b in
the context's plug-in map and keeps the descriptor use count taken by
cpi_use_info, so the install is not fully rolled back. -/
theorem install_conflict_keeps_registration :
    (P1.cp_install_plugin epCtxA epInfoB).1 = .errConflict ∧
    (P1.cp_install_plugin epCtxA epInfoB).2.plugins.map Prod.fst = ["a", "b"] ∧
    (P1.cp_install_plugin epCtxA epInfoB).2.extPoints = epCtxA.extPoints ∧
    (P1.cp_install_plugin epCtxA epInfoB).2.extensions = epCtxA.extensions ∧
    alook (P1.cp_install_plugin epCtxA epInfoB).2.infoUse "b" = some 1 ∧
    epCtxA.plugins.map Prod.fst = ["a"] :=
  ⟨rfl, rfl, rfl, rfl, rfl, rfl⟩

/-- C8 (divergence): cp_release_plugin acquires the data lock on entry but
on the path where the released plug-in is not in use it returns without
releasing, leaving the lock depth one higher; the normal release path
balances the lock. -/
theorem release_unused_leaks_lock :
    (P0.cp_release_plugin noUseG "a").map (fun g => g.lockDepth) = some 1 ∧
    (P0.cp_release_plugin handleG "a").map (fun g => g.lockDepth) = some 0 :=
  ⟨rfl, rfl⟩

/-- C4: when a resolved plug-in's start function reports failure,
start_plugin_runtime delivers the STARTING→STOPPING event, invokes the
plug-in's stop function (if any) with the stop-invocation counter raised,
delivers STOPPING→RESOLVED, leaves the plug-in in state RESOLVED and absent
from started-plugins, and returns the Runtime error. -/
theorem start_runtime_failure_rollback (c : P1.Ctx) (pid : String) (p : P1.RPlugin)
    (h1 : c.getP pid = some p) (h2 : p.startFunc = true) (h3 : p.info.startReturns = false)
    (h4 : pid ∉ c.started) :
    ∃ c1, P1.start_plugin_runtime c pid = some (.errRuntime, c1) ∧
      c1.events = c.events ++
        [⟨pid, p.state, .starting⟩, ⟨pid, .starting, .stopping⟩, ⟨pid, .stopping, .resolved⟩] ∧
      c1.getP pid = some { p with state := .resolved } ∧
      c1.started = c.started ∧ pid ∉ c1.started ∧
      c1.stopCalls = c.stopCalls ++ (if p.stopFunc then [(pid, c.stopInv + 1)] else []) ∧
      c1.stopInv = c.stopInv ∧ c1.startInv = c.startInv := by
  have h1x : alook c.plugins pid = some p := h1
  cases hsf : p.stopFunc <;>
    simp [P1.start_plugin_runtime, P1.evTrans, P1.deliver, P1.modifyP, P1.startCall,
      P1.stopCall, P1.Ctx.getP, alook_amod_self, h1x, h2, h3, h4, hsf]

/-- Witness for start_runtime_failure_rollback at the concrete resolved
plug-in with a failing start function and a stop function. -/
theorem start_runtime_failure_rollback_witness :
    ∃ c1, P1.start_plugin_runtime startFailCtx "a" = some (.errRuntime, c1) ∧
      c1.events = startFailCtx.events ++
        [⟨"a", startFailRec.state, .starting⟩, ⟨"a", .starting, .stopping⟩,
         ⟨"a", .stopping, .resolved⟩] ∧
      c1.getP "a" = some { startFailRec with state := .resolved } ∧
      c1.started = startFailCtx.started ∧ "a" ∉ c1.started ∧
      c1.stopCalls = startFailCtx.stopCalls ++
        (if startFailRec.stopFunc then [("a", startFailCtx.stopInv + 1)] else []) ∧
      c1.stopInv = startFailCtx.stopInv ∧ c1.startInv = startFailCtx.startInv :=
  start_runtime_failure_rollback startFailCtx "a" startFailRec rfl rfl rfl (by decide)

/-- C7: uninstalling a plug-in whose descriptor handle is still held
(use count n+1) keeps the registered record alive in state UNINSTALLED,
removes the id from the plug-in map so that get/stop/start/unload on the id
return Unknown, and a later release brings the use count down, freeing the
record exactly when the count reaches zero on the UNINSTALLED plug-in. -/
theorem handle_survives_uninstall (f : Nat) (g : P0.GState) (id : String) (r : P0.Rec0)
    (n : Nat) (h1 : P0.getR g id = some r) (h2 : r.state = .installed) (h3 : id ∈ g.plugins)
    (h4 : r.useCount = n + 1) (h5 : id ∈ g.used) (h6 : g.plugins.Nodup)
    (h7 : (g.recs.map Prod.fst).Nodup) :
    ∃ g1, P0.cp_unload_plugin (f + 1) g id = some (.ok, g1) ∧
      P0.getR g1 id = some { r with state := .uninstalled } ∧
      id ∉ g1.plugins ∧ g1.used = g.used ∧
      (∃ gx, P0.cp_get_plugin g1 id = some (none, .errUnknown, gx)) ∧
      (∃ gx, P0.cp_stop_plugin0 g1 id = some (.errUnknown, gx)) ∧
      (∃ gx, P0.cp_start_plugin0 (f + 1) g1 id = some (.errUnknown, gx)) ∧
      (∃ gx, P0.cp_unload_plugin (f + 1) g1 id = some (.errUnknown, gx)) ∧
      (P0.cp_release_plugin g1 id).isSome = true ∧
      (∀ g2, P0.cp_release_plugin g1 id = some g2 →
        (n = 0 → P0.getR g2 id = none) ∧
        (∀ m, n = m + 1 → P0.getR g2 id = some { r with state := .uninstalled, useCount := m + 1 })) := by
  have h1x : alook g.recs id = some r := h1
  have hidx0 : ¬ r.state.idx ≤ 0 := by rw [h2]; decide
  have hidx1 : r.state.idx ≤ 1 := by rw [h2]; decide
  have hnm : id ∉ ptrsetRemove g.plugins id :=
    fun hm => ((mem_ptrsetRemove_iff id id h6).mp hm).2 rfl
  refine ⟨{ recs := amod g.recs id (fun q => { q with state := PState.uninstalled }),
            plugins := ptrsetRemove g.plugins id, used := g.used, started := g.started,
            events := g.events ++ [⟨id, r.state, .uninstalled⟩],
            lockDepth := g.lockDepth + 1 - 1 }, ?_, ?_, hnm, rfl, ?_, ?_, ?_, ?_, ?_, ?_⟩
  · simp [P0.cp_unload_plugin, P0.unload_plugin, P0.unresolve_plugin0, P0.evT, P0.modR,
      P0.getR, P0.lockData, P0.unlockData, h1x, h2, h3, h4, hidx0, hidx1, alook_amod_self,
      PState.idx]
  · simp [P0.getR, alook_amod_self, h1x]
  · simp [P0.cp_get_plugin, P0.lockData, P0.unlockData, hnm]
  · simp [P0.cp_stop_plugin0, P0.lockData, P0.unlockData, hnm]
  · simp [P0.cp_start_plugin0, P0.lockData, P0.unlockData, hnm]
  · simp [P0.cp_unload_plugin, P0.lockData, P0.unlockData, hnm]
  · simp [P0.cp_release_plugin, P0.lockData, P0.unlockData, P0.getR, P0.modR, h5,
      alook_amod_self, h1x]
  · intro g2 hrel
    cases n with
    | zero =>
      simp [P0.cp_release_plugin, P0.lockData, P0.unlockData, P0.getR, P0.modR, h5,
        alook_amod_self, h1x, h4] at hrel
      refine ⟨fun _ => ?_, fun m hm => absurd hm (by simp)⟩
      subst hrel
      simp only [P0.getR]
      rw [alook_aerase_self]
      simp only [keys_amod]
      exact h7
    | succ m =>
      simp [P0.cp_release_plugin, P0.lockData, P0.unlockData, P0.getR, P0.modR, h5,
        alook_amod_self, h1x, h4] at hrel
      refine ⟨fun hm => absurd hm (by simp), fun m2 hm => ?_⟩
      have hmm : m = m2 := by omega
      subst hmm
      subst hrel
      simp [P0.getR, P0.modR, alook_amod_self, h1x, h4]

/-- Witness for handle_survives_uninstall: plug-in a installed with one
outstanding handle; unload keeps the record, operations return Unknown, and
the final release frees it. -/
theorem handle_survives_uninstall_witness :
    ∃ g1, P0.cp_unload_plugin 4 handleG "a" = some (.ok, g1) ∧
      P0.getR g1 "a" = some { handleRec with state := .uninstalled } ∧
      "a" ∉ g1.plugins ∧ g1.used = handleG.used ∧
      (∃ gx, P0.cp_get_plugin g1 "a" = some (none, .errUnknown, gx)) ∧
      (∃ gx, P0.cp_stop_plugin0 g1 "a" = some (.errUnknown, gx)) ∧
      (∃ gx, P0.cp_start_plugin0 4 g1 "a" = some (.errUnknown, gx)) ∧
      (∃ gx, P0.cp_unload_plugin 4 g1 "a" = some (.errUnknown, gx)) ∧
      (P0.cp_release_plugin g1 "a").isSome = true ∧
      (∀ g2, P0.cp_release_plugin g1 "a" = some g2 →
        (0 = 0 → P0.getR g2 "a" = none) ∧
        (∀ m, 0 = m + 1 →
          P0.getR g2 "a" = some { handleRec with state := .uninstalled, useCount := m + 1 })) :=
  handle_survives_uninstall 3 handleG "a" handleRec 0 rfl rfl (by decide) rfl (by decide)
    (by decide) (by decide)

theorem logger_foldl_le_init (l : List LG.Logger) :
    ∀ a : Int,
      l.foldl (fun nms lh => if lh.minSeverity < nms then lh.minSeverity else nms) a ≤ a := by
  induction l with
  | nil => intro a; simp
  | cons lh tl ih =>
    intro a
    simp only [List.foldl_cons]
    refine le_trans (ih _) ?_
    by_cases h : lh.minSeverity < a
    · rw [if_pos h]; exact le_of_lt h
    · rw [if_neg h]

theorem logger_foldl_le_mem (l : List LG.Logger) :
    ∀ a : Int, ∀ lh, lh ∈ l →
      l.foldl (fun nms lh => if lh.minSeverity < nms then lh.minSeverity else nms) a ≤
        lh.minSeverity := by
  induction l with
  | nil => intro a lh h; simp at h
  | cons hd tl ih =>
    intro a lh h
    simp only [List.foldl_cons]
    rcases List.mem_cons.mp h with rfl | hm
    · refine le_trans (logger_foldl_le_init tl _) ?_
      by_cases hc : lh.minSeverity < a
      · rw [if_pos hc]
      · rw [if_neg hc]; exact le_of_not_lt hc
    · exact ih _ lh hm

theorem logger_foldl_mem_or_init (l : List LG.Logger) :
    ∀ a : Int,
      l.foldl (fun nms lh => if lh.minSeverity < nms then lh.minSeverity else nms) a = a ∨
      ∃ lh, lh ∈ l ∧
        l.foldl (fun nms lh => if lh.minSeverity < nms then lh.minSeverity else nms) a =
          lh.minSeverity := by
  induction l with
  | nil => intro a; exact Or.inl rfl
  | cons hd tl ih =>
    intro a
    simp only [List.foldl_cons]
    rcases ih (if hd.minSeverity < a then hd.minSeverity else a) with he | ⟨lh, hm, he⟩
    · by_cases hc : hd.minSeverity < a
      · rw [if_pos hc] at he ⊢
        exact Or.inr ⟨hd, List.mem_cons_self hd tl, he⟩
      · rw [if_neg hc] at he ⊢
        exact Or.inl he
    · exact Or.inr ⟨lh, List.mem_cons_of_mem hd hm, he⟩

theorem cacheLeast_of_limits (l : List LG.Logger) :
    LG.cacheLeast { loggers := l, logMinSeverity := LG.update_logging_limits l } := by
  refine ⟨logger_foldl_le_init l 1000, fun lh hm => logger_foldl_le_mem l 1000 lh hm,
    fun he => by
      have he2 : l = [] := he
      subst he2
      rfl, fun hall hne => ?_⟩
  rcases logger_foldl_mem_or_init l 1000 with he | ⟨lh, hm, he⟩
  · rcases List.exists_mem_of_ne_nil l hne with ⟨lh, hm⟩
    refine ⟨lh, hm, le_antisymm (logger_foldl_le_mem l 1000 lh hm) ?_⟩
    rw [LG.update_logging_limits, he]
    exact hall lh hm
  · exact ⟨lh, hm, he⟩

theorem findLogger_none_not_mem {l : List LG.Logger} {fn : Nat}
    (h : LG.findLogger l fn = none) : fn ∉ l.map LG.Logger.fn := by
  induction l with
  | nil => simp
  | cons hd tl ih =>
    simp only [LG.findLogger] at h
    by_cases hf : hd.fn = fn
    · rw [if_pos hf] at h; exact absurd h (by simp)
    · rw [if_neg hf] at h
      simp only [List.map_cons, List.mem_cons]
      rintro (he | hm)
      · exact hf he.symm
      · exact ih h hm

theorem findLogger_append_of_none {l : List LG.Logger} {fn : Nat} (l2 : List LG.Logger)
    (h : LG.findLogger l fn = none) :
    LG.findLogger (l ++ l2) fn = LG.findLogger l2 fn := by
  induction l with
  | nil => simp
  | cons hd tl ih =>
    simp only [LG.findLogger] at h
    by_cases hf : hd.fn = fn
    · rw [if_pos hf] at h; exact absurd h (by simp)
    · rw [if_neg hf] at h
      rw [List.cons_append]
      simp only [LG.findLogger]
      rw [if_neg hf]
      exact ih h

theorem findLogger_updateLogger {l : List LG.Logger} {fn : Nat} {lh : LG.Logger}
    (nv : LG.Logger) (hnv : nv.fn = fn) (h1 : LG.findLogger l fn = some lh) :
    LG.findLogger (LG.updateLogger l fn nv) fn = some nv := by
  induction l with
  | nil => simp [LG.findLogger] at h1
  | cons hd tl ih =>
    simp only [LG.findLogger] at h1
    simp only [LG.updateLogger]
    by_cases hf : hd.fn = fn
    · rw [if_pos hf]
      simp only [LG.findLogger]
      rw [if_pos hnv]
    · rw [if_neg hf] at h1
      rw [if_neg hf]
      simp only [LG.findLogger]
      rw [if_neg hf]
      exact ih h1

theorem length_updateLogger (l : List LG.Logger) (fn : Nat) (nv : LG.Logger) :
    (LG.updateLogger l fn nv).length = l.length := by
  induction l with
  | nil => rfl
  | cons hd tl ih =>
    simp only [LG.updateLogger]
    by_cases hf : hd.fn = fn
    · rw [if_pos hf]; simp
    · rw [if_neg hf]; simp [ih]

theorem map_fn_updateLogger (l : List LG.Logger) (fn : Nat) (nv : LG.Logger)
    (hnv : nv.fn = fn) :
    (LG.updateLogger l fn nv).map LG.Logger.fn = l.map LG.Logger.fn := by
  induction l with
  | nil => rfl
  | cons hd tl ih =>
    simp only [LG.updateLogger]
    by_cases hf : hd.fn = fn
    · rw [if_pos hf]; simp [hnv, hf]
    · rw [if_neg hf]; simp [ih]

theorem findLogger_some_fn {l : List LG.Logger} {fn : Nat} {lh : LG.Logger}
    (h : LG.findLogger l fn = some lh) : lh.fn = fn := by
  induction l with
  | nil => simp [LG.findLogger] at h
  | cons hd tl ih =>
    simp only [LG.findLogger] at h
    by_cases hf : hd.fn = fn
    · rw [if_pos hf] at h
      cases h
      exact hf
    · rw [if_neg hf] at h
      exact ih h

/-- C10: registering an already-registered logger function updates the
existing holder in place (same number of holders; its minimum severity and
context rule take the new values) and never duplicates it, the logger
function list stays duplicate-free, after cp_add_logger and
cp_remove_logger the global minimum-severity cache is the least registered
minimum severity (the no-logging sentinel 1000 when there are none), and a
message below the cache is neither formatted nor delivered while any
delivered message reaches each registered logger function at most once. -/
theorem logger_no_dup_and_severity_cache (s : LG.LState) (fn ud : Nat) (minSev : Int)
    (rule : Option Nat) (ctx : Option Nat) (sev : Int)
    (hnd : (s.loggers.map LG.Logger.fn).Nodup) (hc : LG.cacheLeast s) :
    ((LG.findLogger s.loggers fn).isSome →
      (LG.cp_add_logger s fn ud minSev rule).loggers.length = s.loggers.length) ∧
    (∃ lh, LG.findLogger (LG.cp_add_logger s fn ud minSev rule).loggers fn = some lh ∧
      lh.minSeverity = minSev ∧ lh.ctxRule = rule) ∧
    ((LG.cp_add_logger s fn ud minSev rule).loggers.map LG.Logger.fn).Nodup ∧
    LG.cacheLeast (LG.cp_add_logger s fn ud minSev rule) ∧
    LG.cacheLeast (LG.cp_remove_logger s fn) ∧
    (sev < s.logMinSeverity → LG.cpi_log s ctx sev = [] ∧ LG.logFormatted s sev = false) ∧
    (∀ fnx, (LG.cpi_log s ctx sev).count fnx ≤ 1) := by
  refine ⟨?_, ?_, ?_, ?_, ?_, ?_, ?_⟩
  · intro hs
    cases hfind : LG.findLogger s.loggers fn with
    | none => rw [hfind] at hs; simp at hs
    | some lh => simp [LG.cp_add_logger, hfind, length_updateLogger]
  · cases hfind : LG.findLogger s.loggers fn with
    | none =>
      refine ⟨⟨fn, ud, minSev, rule⟩, ?_, rfl, rfl⟩
      simp only [LG.cp_add_logger, hfind]
      rw [findLogger_append_of_none _ hfind]
      simp [LG.findLogger]
    | some lh =>
      refine ⟨{ lh with minSeverity := minSev, ctxRule := rule }, ?_, rfl, rfl⟩
      simp only [LG.cp_add_logger, hfind]
      have hfn : lh.fn = fn := findLogger_some_fn hfind
      exact findLogger_updateLogger { lh with minSeverity := minSev, ctxRule := rule } hfn hfind
  · cases hfind : LG.findLogger s.loggers fn with
    | none =>
      simp only [LG.cp_add_logger, hfind, List.map_append, List.map_cons, List.map_nil]
      exact List.Nodup.append hnd (List.nodup_singleton fn)
        (by simpa using findLogger_none_not_mem hfind)
    | some lh =>
      simp only [LG.cp_add_logger, hfind]
      have hfn : lh.fn = fn := findLogger_some_fn hfind
      rw [map_fn_updateLogger s.loggers fn { lh with minSeverity := minSev, ctxRule := rule } hfn]
      exact hnd
  · cases hfind : LG.findLogger s.loggers fn with
    | none =>
      simp only [LG.cp_add_logger, hfind]
      exact cacheLeast_of_limits _
    | some lh =>
      simp only [LG.cp_add_logger, hfind]
      exact cacheLeast_of_limits _
  · cases hfind : LG.findLogger s.loggers fn with
    | none =>
      simp only [LG.cp_remove_logger, hfind]
      exact hc
    | some lh =>
      simp only [LG.cp_remove_logger, hfind]
      exact cacheLeast_of_limits _
  · intro hlt
    have hn : ¬ s.logMinSeverity ≤ sev := not_le.mpr hlt
    constructor
    · simp [LG.cpi_log, hn]
    · simp [LG.logFormatted, hn]
  · intro fnx
    by_cases hg : s.logMinSeverity ≤ sev
    · rw [LG.cpi_log, if_pos hg]
      refine le_trans ?_ (List.nodup_iff_count_le_one.mp hnd fnx)
      exact ((List.filter_sublist s.loggers).map LG.Logger.fn).count_le fnx
    · rw [LG.cpi_log, if_neg hg]
      simp

/-- Witness for logger_no_dup_and_severity_cache: updating registered
logger 1 in the two-logger state keeps two holders, the cache stays the
least severity, and a message of severity -1 (below the cache 0) is neither
formatted nor delivered. -/
theorem logger_no_dup_and_severity_cache_witness :
    ((LG.findLogger lgS.loggers 1).isSome →
      (LG.cp_add_logger lgS 1 99 1 (some 3)).loggers.length = lgS.loggers.length) ∧
    (∃ lh, LG.findLogger (LG.cp_add_logger lgS 1 99 1 (some 3)).loggers 1 = some lh ∧
      lh.minSeverity = 1 ∧ lh.ctxRule = some 3) ∧
    ((LG.cp_add_logger lgS 1 99 1 (some 3)).loggers.map LG.Logger.fn).Nodup ∧
    LG.cacheLeast (LG.cp_add_logger lgS 1 99 1 (some 3)) ∧
    LG.cacheLeast (LG.cp_remove_logger lgS 1) ∧
    (-1 < lgS.logMinSeverity → LG.cpi_log lgS none (-1) = [] ∧
      LG.logFormatted lgS (-1) = false) ∧
    (∀ fnx, (LG.cpi_log lgS none (-1)).count fnx ≤ 1) :=
  logger_no_dup_and_severity_cache lgS 1 99 1 (some 3) none (-1) (by decide)
    (by unfold LG.cacheLeast; decide)

theorem amod_amod {β : Type} (l : List (String × β)) (k : String) (f g : β → β) :
    amod (amod l k f) k g = amod l k (fun v => g (f v)) := by
  induction l with
  | nil => rfl
  | cons hd tl ih =>
    obtain ⟨a, b⟩ := hd
    simp only [amod, ih]
    by_cases h : a = k
    · rw [if_pos h, if_pos h, if_pos h]
    · rw [if_neg h, if_neg h, if_neg h]

theorem pstate_idx_lt5 {st : PState} (h : st ≠ .active) : st.idx < 5 := by
  cases st
  · decide
  · decide
  · decide
  · decide
  · decide
  · exact absurd rfl h

theorem laterIn_concat {l₀ : List String} {L a b : String} (h : P1.laterIn (l₀ ++ [L]) a b)
    (hb : b ≠ L) : P1.laterIn l₀ a b := by
  intro l₁ l₂ he
  have h2 := h l₁ (l₂ ++ [L]) (by rw [he]; simp)
  rcases List.mem_append.mp h2 with hm | hm
  · exact hm
  · simp at hm
    exact absurd hm hb

theorem stop_fold_noop (f : Nat) (c : P1.Ctx) (l : List String)
    (hall : ∀ q, q ∈ l → ∃ r, c.getP q = some r ∧ r.state.idx < 5) :
    P1.foldOptCtx (P1.stop_plugin (f + 1)) c l = some c := by
  induction l with
  | nil => rfl
  | cons q rest ih =>
    obtain ⟨r, hr, hlt⟩ := hall q (List.mem_cons_self q rest)
    have h1 : P1.stop_plugin (f + 1) c q = some c := by
      simp [P1.stop_plugin, hr, hlt]
    simp only [P1.foldOptCtx, h1]
    exact ih (fun x hx => hall x (List.mem_cons_of_mem q hx))

theorem stop_last_step (f : Nat) (c : P1.Ctx) (l₀ : List String) (L : String) (p : P1.RPlugin)
    (hwf : P1.StopWF c) (hst : c.started = l₀ ++ [L]) (hp : c.getP L = some p) :
    P1.stop_plugin (f + 2) c L = some
      { plugins := amod c.plugins L (fun q => { q with state := PState.resolved, processed := false }),
        extPoints := c.extPoints, extensions := c.extensions,
        started := l₀,
        events := c.events ++ [⟨L, .active, .stopping⟩, ⟨L, .stopping, .resolved⟩],
        startInv := c.startInv, stopInv := c.stopInv,
        startCalls := c.startCalls,
        stopCalls := c.stopCalls ++ (if p.stopFunc then [(L, c.stopInv + 1)] else []),
        infoUse := c.infoUse } := by
  obtain ⟨hnd, h1, h2, h4⟩ := hwf
  have hLmem : L ∈ c.started := by rw [hst]; simp
  obtain ⟨p2, hp2, hact, hproc⟩ := h1 L hLmem
  rw [hp] at hp2
  cases hp2
  have hLnotl0 : L ∉ l₀ := by
    have hnd2 := hnd
    rw [hst] at hnd2
    intro hm
    rcases List.nodup_append.mp hnd2 with ⟨_, _, hdisj⟩
    exact hdisj hm (by simp)
  have himp : ∀ q, q ∈ p.importing →
      ∃ r, (P1.modifyP c L (fun q => { q with processed := true })).getP q = some r ∧
        r.state.idx < 5 := by
    intro q hq
    obtain ⟨hqs, hlater⟩ := h4 L p hp hLmem q hq
    have hqL : q ≠ L := by
      intro he
      subst he
      have := hlater hLmem
      simpa using this l₀ [] hst
    obtain ⟨r, hr⟩ := Option.isSome_iff_exists.mp hqs
    refine ⟨r, ?_, ?_⟩
    · rw [P1.getP_modifyP_ne c L q _ hqL]
      exact hr
    · refine pstate_idx_lt5 ?_
      intro hract
      have hqst := h2 q r hr hract
      have := hlater hqst
      simpa using this l₀ [] hst
  have hfold := stop_fold_noop f (P1.modifyP c L (fun q => { q with processed := true }))
    p.importing himp
  have hidx : ¬ p.state.idx < 5 := by rw [hact]; decide
  have hproc2 : ¬ p.processed = true := by rw [hproc]; simp
  have h1x : alook c.plugins L = some p := hp
  show (match c.getP L with
    | none => none
    | some p =>
      if p.state.idx < 5 then some c
      else if p.processed then some c
      else
        match P1.foldOptCtx (P1.stop_plugin (f + 1))
            (P1.modifyP c L (fun q => { q with processed := true })) p.importing with
        | none => none
        | some c2 =>
          match P1.stop_plugin_runtime c2 L with
          | none => none
          | some c3 => some (P1.modifyP c3 L (fun q => { q with processed := false }))) = _
  rw [hp]
  show (if p.state.idx < 5 then some c
      else if p.processed then some c
      else
        match P1.foldOptCtx (P1.stop_plugin (f + 1))
            (P1.modifyP c L (fun q => { q with processed := true })) p.importing with
        | none => none
        | some c2 =>
          match P1.stop_plugin_runtime c2 L with
          | none => none
          | some c3 => some (P1.modifyP c3 L (fun q => { q with processed := false }))) = _
  rw [if_neg hidx, if_neg hproc2, hfold]
  show (match P1.stop_plugin_runtime
      (P1.modifyP c L (fun q => { q with processed := true })) L with
    | none => none
    | some c3 => some (P1.modifyP c3 L (fun q => { q with processed := false }))) = _
  cases hsf : p.stopFunc <;>
    simp [P1.stop_plugin_runtime, P1.evTrans, P1.stopCall, P1.deliver,
      P1.modifyP, P1.Ctx.getP, h1x, hproc, hact, hsf, alook_amod_self,
      amod_amod, hst, ptrsetRemove_concat hLnotl0]

/-- C5: under the started-list invariants (started-plugins are exactly the
ACTIVE plug-ins, in an order where every started importer of a plug-in
comes later), cp_stop_all_plugins stops the last entry repeatedly until the
list is empty: it stops the plug-ins in the reverse of their start order
(the ACTIVE→STOPPING, STOPPING→RESOLVED event pairs appear in reverse start
order, so every active dependent stops before the plug-ins it imports),
and afterwards started-plugins is empty and no registered plug-in is in
state ACTIVE. -/
theorem stop_all_reverse_and_drains (fuel : Nat) (c : P1.Ctx)
    (hwf : P1.StopWF c) (hf : c.started.length + 2 ≤ fuel) :
    ∃ c1, P1.cp_stop_all_plugins fuel c = some c1 ∧
      c1.started = [] ∧
      c1.events = c.events ++ P1.stopEvs c.started.reverse ∧
      (∀ pid p, c1.getP pid = some p → p.state ≠ .active) := by
  induction fuel generalizing c with
  | zero => omega
  | succ k ih =>
    rcases List.eq_nil_or_concat c.started with hnil | ⟨l₀, L, hst⟩
    · have hgl : c.started.getLast? = none := by rw [hnil]; rfl
      refine ⟨c, ?_, hnil, by rw [hnil]; simp [P1.stopEvs], ?_⟩
      · show (match c.started.getLast? with
          | none => some c
          | some pid =>
            match P1.stop_plugin (k + 1) c pid with
            | none => none
            | some c1 => P1.cp_stop_all_plugins k c1) = some c
        rw [hgl]
      · intro pid p hgp hact
        have := hwf.2.2.1 pid p hgp hact
        rw [hnil] at this
        simp at this
    · rw [List.concat_eq_append] at hst
      have hgl : c.started.getLast? = some L := by rw [hst]; exact List.getLast?_concat _
      have hlen : c.started.length = l₀.length + 1 := by rw [hst]; simp
      obtain ⟨f, hk⟩ : ∃ f, k = f + 1 := ⟨k - 1, by omega⟩
      obtain ⟨hnd, h1, h2, h4⟩ := hwf
      have hLmem : L ∈ c.started := by rw [hst]; simp
      obtain ⟨p, hp, hact, hproc⟩ := h1 L hLmem
      have h1x : alook c.plugins L = some p := hp
      have hndc : l₀.Nodup ∧ L ∉ l₀ := by
        have hnd2 := hnd
        rw [hst] at hnd2
        rcases List.nodup_append.mp hnd2 with ⟨ha, _, hdisj⟩
        exact ⟨ha, fun hm => hdisj hm (by simp)⟩
      have hstop := stop_last_step f c l₀ L p ⟨hnd, h1, h2, h4⟩ hst hp
      have hstop2 : P1.stop_plugin (k + 1) c L = some
          { plugins := amod c.plugins L
              (fun q => { q with state := PState.resolved, processed := false }),
            extPoints := c.extPoints, extensions := c.extensions,
            started := l₀,
            events := c.events ++ [⟨L, .active, .stopping⟩, ⟨L, .stopping, .resolved⟩],
            startInv := c.startInv, stopInv := c.stopInv,
            startCalls := c.startCalls,
            stopCalls := c.stopCalls ++ (if p.stopFunc then [(L, c.stopInv + 1)] else []),
            infoUse := c.infoUse } := by
        rw [hk]
        exact hstop
      set c1lit : P1.Ctx :=
          { plugins := amod c.plugins L
              (fun q => { q with state := PState.resolved, processed := false }),
            extPoints := c.extPoints, extensions := c.extensions,
            started := l₀,
            events := c.events ++ [⟨L, .active, .stopping⟩, ⟨L, .stopping, .resolved⟩],
            startInv := c.startInv, stopInv := c.stopInv,
            startCalls := c.startCalls,
            stopCalls := c.stopCalls ++ (if p.stopFunc then [(L, c.stopInv + 1)] else []),
            infoUse := c.infoUse } with hc1
      have hgne : ∀ x, x ≠ L → c1lit.getP x = c.getP x := by
        intro x hx
        exact alook_amod_ne c.plugins L x _ hx
      have hgL : c1lit.getP L = some { p with state := .resolved, processed := false } := by
        show alook (amod c.plugins L _) L = _
        rw [alook_amod_self, h1x]
        rfl
      have hwf1 : P1.StopWF c1lit := by
        refine ⟨hndc.1, ?_, ?_, ?_⟩
        · intro pid hm
          have hpidL : pid ≠ L := fun he => hndc.2 (he ▸ hm)
          obtain ⟨r, hr, hra, hrp⟩ := h1 pid (by rw [hst]; exact List.mem_append_left _ hm)
          exact ⟨r, (hgne pid hpidL).symm ▸ hr, hra, hrp⟩
        · intro pid r hr hra
          by_cases hpidL : pid = L
          · subst hpidL
            rw [hgL] at hr
            cases hr
            simp at hra
          · rw [hgne pid hpidL] at hr
            have := h2 pid r hr hra
            rw [hst] at this
            rcases List.mem_append.mp this with hm | hm
            · exact hm
            · simp at hm
              exact absurd hm hpidL
        · intro pid r hr hm q hq
          have hpidL : pid ≠ L := fun he => hndc.2 (he ▸ hm)
          rw [hgne pid hpidL] at hr
          have hmem : pid ∈ c.started := by rw [hst]; exact List.mem_append_left _ hm
          obtain ⟨hqs, hlater⟩ := h4 pid r hr hmem q hq
          constructor
          · by_cases hqL : q = L
            · subst hqL
              rw [hgL]
              rfl
            · rw [hgne q hqL]
              exact hqs
          · intro hql
            have hqL : q ≠ L := fun he => hndc.2 (he ▸ hql)
            have hqstart : q ∈ c.started := by rw [hst]; exact List.mem_append_left _ hql
            have := hlater hqstart
            rw [hst] at this
            exact laterIn_concat this hqL
      have hlen1 : c1lit.started.length + 2 ≤ k := by
        show l₀.length + 2 ≤ k
        omega
      obtain ⟨c2, hrun, hempty, hev, hnoact⟩ := ih c1lit hwf1 hlen1
      refine ⟨c2, ?_, hempty, ?_, hnoact⟩
      · show (match c.started.getLast? with
          | none => some c
          | some pid =>
            match P1.stop_plugin (k + 1) c pid with
            | none => none
            | some c1 => P1.cp_stop_all_plugins k c1) = some c2
        rw [hgl]
        show (match P1.stop_plugin (k + 1) c L with
          | none => none
          | some c1 => P1.cp_stop_all_plugins k c1) = some c2
        rw [hstop2]
        exact hrun
      · rw [hev, hst]
        show (c.events ++ [⟨L, .active, .stopping⟩, ⟨L, .stopping, .resolved⟩]) ++
            P1.stopEvs l₀.reverse = c.events ++ P1.stopEvs (l₀ ++ [L]).reverse
        rw [List.reverse_append]
        simp [P1.stopEvs]

/-- Witness for stop_all_reverse_and_drains: the single-active-plug-in
context; stop-all empties started-plugins and emits the stop event pair. -/
theorem stop_all_reverse_and_drains_witness :
    ∃ c1, P1.cp_stop_all_plugins 3 activeCtx = some c1 ∧
      c1.started = [] ∧
      c1.events = activeCtx.events ++ P1.stopEvs activeCtx.started.reverse ∧
      (∀ pid p, c1.getP pid = some p → p.state ≠ .active) := by
  refine stop_all_reverse_and_drains 3 activeCtx ⟨?_, ?_, ?_, ?_⟩ (by decide)
  · decide
  · intro pid hm
    simp only [activeCtx] at hm
    simp at hm
    subst hm
    exact ⟨_, rfl, rfl, rfl⟩
  · intro pid p hgp hact
    have hmem := alook_eq_some_mem hgp
    simp [activeCtx] at hmem
    obtain ⟨rfl, rfl⟩ := hmem
    simp [activeCtx]
  · intro pid r hr hm q hq
    have hmem := alook_eq_some_mem hr
    simp [activeCtx] at hmem
    obtain ⟨rfl, rfl⟩ := hmem
    simp at hq

theorem shp_refl (c : P1.Ctx) : P1.Shp c c := ⟨rfl, fun _ => rfl⟩

theorem shp_trans {a b c : P1.Ctx} (h1 : P1.Shp a b) (h2 : P1.Shp b c) : P1.Shp a c :=
  ⟨h2.1.trans h1.1, fun x => (h2.2 x).trans (h1.2 x)⟩

theorem shp_plugins_eq {c c1 : P1.Ctx} (h : c1.plugins = c.plugins) : P1.Shp c c1 :=
  ⟨by rw [h], fun x => by unfold P1.Ctx.getP; rw [h]⟩

theorem shp_modifyP {c : P1.Ctx} {k : String} {f : P1.RPlugin → P1.RPlugin}
    (h : ∀ p, c.getP k = some p → P1.eproj (f p) = P1.eproj p) :
    P1.Shp c (P1.modifyP c k f) := by
  refine ⟨keys_amod c.plugins k f, fun x => ?_⟩
  by_cases hx : x = k
  · subst hx
    rw [P1.getP_modifyP_self]
    cases hg : c.getP x with
    | none => rfl
    | some p => simp [h p hg]
  · rw [P1.getP_modifyP_ne c k x f hx]

theorem inv_of_shp {c c1 : P1.Ctx} (hs : P1.Shp c c1) (hi : P1.Inv c) : P1.Inv c1 := by
  obtain ⟨hk, hg⟩ := hs
  obtain ⟨hnd, hent, hsym⟩ := hi
  refine ⟨by rw [hk]; exact hnd, ?_, ?_⟩
  · intro pid p hp
    have := hg pid
    rw [hp] at this
    cases hcg : c.getP pid with
    | none => rw [hcg] at this; simp at this
    | some q =>
      rw [hcg] at this
      simp [P1.eproj] at this
      obtain ⟨h1, h2, h3⟩ := this
      obtain ⟨e1, e2, e3⟩ := hent pid q hcg
      rw [h1, h2, h3]
      exact ⟨e1, e2, e3⟩
  · intro pid p qid q hp hq
    have hgp := hg pid
    have hgq := hg qid
    rw [hp] at hgp
    rw [hq] at hgq
    cases hcp : c.getP pid with
    | none => rw [hcp] at hgp; simp at hgp
    | some p0 =>
      cases hcq : c.getP qid with
      | none => rw [hcq] at hgq; simp at hgq
      | some q0 =>
        rw [hcp] at hgp
        rw [hcq] at hgq
        simp [P1.eproj] at hgp hgq
        rw [hgp.1, hgq.2.1]
        exact hsym pid p0 qid q0 hcp hcq

theorem shp_deliver (c : P1.Ctx) (e : Ev) : P1.Shp c (P1.deliver c e) :=
  shp_plugins_eq rfl

theorem shp_evTrans (c : P1.Ctx) (pid : String) (ns : PState) :
    P1.Shp c (P1.evTrans c pid ns) := by
  unfold P1.evTrans
  cases hg : c.getP pid with
  | none => exact shp_refl c
  | some p =>
    refine shp_trans (shp_modifyP ?_) (shp_plugins_eq rfl)
    intro q _
    rfl

theorem foldOptCtx_rel {P : P1.Ctx → P1.Ctx → Prop}
    (hrefl : ∀ c, P c c) (htr : ∀ a b c, P a b → P b c → P a c)
    (recFn : P1.Ctx → String → Option P1.Ctx)
    (hrec : ∀ c x c1, recFn c x = some c1 → P c c1) :
    ∀ (l : List String) (c c1 : P1.Ctx), P1.foldOptCtx recFn c l = some c1 → P c c1 := by
  intro l
  induction l with
  | nil =>
    intro c c1 h
    simp only [P1.foldOptCtx] at h
    cases h
    exact hrefl c
  | cons x rest ih =>
    intro c c1 h
    simp only [P1.foldOptCtx] at h
    cases hx : recFn c x with
    | none => rw [hx] at h; cases h
    | some c2 =>
      rw [hx] at h
      exact htr c c2 c1 (hrec c x c2 hx) (ih c2 c1 h)

theorem shp_stopCall (c : P1.Ctx) (pid : String) : P1.Shp c (P1.stopCall c pid) :=
  shp_plugins_eq rfl

theorem commit_shp : ∀ (fuel : Nat) (c : P1.Ctx) (pid : String) (c1 : P1.Ctx),
    P1.resolve_plugin_commit_rec fuel c pid = some c1 → P1.Shp c c1 := by
  intro fuel
  induction fuel with
  | zero => intro c pid c1 h; simp [P1.resolve_plugin_commit_rec] at h
  | succ fuel ih =>
    intro c pid c1 h
    simp only [P1.resolve_plugin_commit_rec] at h
    cases hg : c.getP pid with
    | none => rw [hg] at h; simp at h
    | some p =>
      rw [hg] at h
      simp only [] at h
      by_cases hpr : p.processed = false
      · rw [if_pos hpr] at h
        cases h
        exact shp_refl c
      · rw [if_neg hpr] at h
        by_cases hst : p.state.idx < 2
        · rw [if_pos hst] at h
          cases hf : P1.foldOptCtx (P1.resolve_plugin_commit_rec fuel)
              (P1.modifyP c pid (fun q => { q with processed := false })) p.importedL with
          | none => rw [hf] at h; simp at h
          | some c2 =>
            rw [hf] at h
            cases h
            have hfold : P1.Shp (P1.modifyP c pid (fun q => { q with processed := false })) c2 :=
              foldOptCtx_rel shp_refl (fun a b c => shp_trans) _
                (fun c x c1 hx => ih c x c1 hx) p.importedL _ c2 hf
            have hm : P1.Shp c (P1.modifyP c pid (fun q => { q with processed := false })) :=
              shp_modifyP (fun q _ => rfl)
            exact shp_trans (shp_trans hm hfold) (shp_evTrans c2 pid .resolved)
        · rw [if_neg hst] at h
          cases h
          exact shp_modifyP (fun q _ => rfl)

theorem stop_runtime_shp {c : P1.Ctx} {pid : String} {c1 : P1.Ctx}
    (h : P1.stop_plugin_runtime c pid = some c1) : P1.Shp c c1 := by
  simp only [P1.stop_plugin_runtime] at h
  cases hg : c.getP pid with
  | none => rw [hg] at h; simp at h
  | some p =>
    rw [hg] at h
    simp only [] at h
    cases hsf : p.stopFunc <;> rw [hsf] at h <;> simp only [if_true, if_false, Bool.false_eq_true] at h
    · cases h
      exact shp_trans (shp_trans (shp_evTrans c pid .stopping) (shp_plugins_eq rfl)) (shp_evTrans _ pid .resolved)
    · cases h
      refine shp_trans (shp_trans (shp_trans (shp_evTrans c pid .stopping) (shp_stopCall _ pid)) (shp_plugins_eq rfl)) (shp_evTrans _ pid .resolved)

theorem stop_shp : ∀ (fuel : Nat) (c : P1.Ctx) (pid : String) (c1 : P1.Ctx),
    P1.stop_plugin fuel c pid = some c1 → P1.Shp c c1 := by
  intro fuel
  induction fuel with
  | zero => intro c pid c1 h; simp [P1.stop_plugin] at h
  | succ fuel ih =>
    intro c pid c1 h
    simp only [P1.stop_plugin] at h
    cases hg : c.getP pid with
    | none => rw [hg] at h; simp at h
    | some p =>
      rw [hg] at h
      simp only [] at h
      by_cases h5 : p.state.idx < 5
      · rw [if_pos h5] at h; cases h; exact shp_refl c
      · rw [if_neg h5] at h
        by_cases hpr : p.processed = true
        · rw [if_pos hpr] at h; cases h; exact shp_refl c
        · rw [if_neg hpr] at h
          cases hf : P1.foldOptCtx (P1.stop_plugin fuel)
              (P1.modifyP c pid (fun q => { q with processed := true })) p.importing with
          | none => rw [hf] at h; simp at h
          | some c2 =>
            rw [hf] at h
            simp only [] at h
            cases hr : P1.stop_plugin_runtime c2 pid with
            | none => rw [hr] at h; simp at h
            | some c3 =>
              rw [hr] at h
              cases h
              have hfold : P1.Shp (P1.modifyP c pid (fun q => { q with processed := true })) c2 :=
                foldOptCtx_rel shp_refl (fun a b c => shp_trans) _
                  (fun c x c1 hx => ih c x c1 hx) p.importing _ c2 hf
              have hm : P1.Shp c (P1.modifyP c pid (fun q => { q with processed := true })) :=
                shp_modifyP (fun q _ => rfl)
              have hm2 : P1.Shp c3 (P1.modifyP c3 pid (fun q => { q with processed := false })) :=
                shp_modifyP (fun q _ => rfl)
              exact shp_trans (shp_trans (shp_trans hm hfold) (stop_runtime_shp hr)) hm2

theorem inv_of_check {c : P1.Ctx} (h : P1.InvCheck c = true) : P1.Inv c := by
  unfold P1.InvCheck at h
  simp only [Bool.and_eq_true, List.all_eq_true, decide_eq_true_eq] at h
  obtain ⟨⟨h1, h2⟩, h3⟩ := h
  refine ⟨h1, ?_, ?_⟩
  · intro pid p hp
    have h4 := h2 (pid, p) (alook_eq_some_mem hp)
    exact ⟨h4.1.1, h4.1.2, h4.2⟩
  · intro pid p qid q hp hq
    exact h3 (pid, p) (alook_eq_some_mem hp) (qid, q) (alook_eq_some_mem hq)

theorem pc_of_check {c : P1.Ctx} (h : P1.PcCheck c = true) : P1.Pc c := by
  unfold P1.PcCheck at h
  simp only [List.all_eq_true, Bool.or_eq_true, decide_eq_true_eq] at h
  intro pid p hp hpr hst
  have hh := h (pid, p) (alook_eq_some_mem hp)
  simp only [] at hh
  rcases hh with (h1 | h1) | h1
  · rw [hpr] at h1; exact absurd h1 (by simp)
  · omega
  · exact h1

theorem getP_modifyP (c : P1.Ctx) (k : String) (f : P1.RPlugin → P1.RPlugin) (x : String) :
    (P1.modifyP c k f).getP x = if x = k then (c.getP x).map f else c.getP x := by
  by_cases hx : x = k
  · rw [if_pos hx]; subst hx; exact P1.getP_modifyP_self c x f
  · rw [if_neg hx]; exact P1.getP_modifyP_ne c k x f hx

theorem getP_addEdge (c : P1.Ctx) (pid ipid x : String) :
    (P1.addEdge c pid ipid).getP x =
      if x = ipid then
        ((if x = pid then
            (c.getP x).map (fun p => { p with imported := some (p.importedL ++ [ipid]) })
          else c.getP x).map
          (fun q => { q with importing := ptrsetAdd q.importing pid }))
      else if x = pid then
        (c.getP x).map (fun p => { p with imported := some (p.importedL ++ [ipid]) })
      else c.getP x := by
  simp only [P1.addEdge, getP_modifyP]

theorem keys_addEdge (c : P1.Ctx) (pid ipid : String) :
    (P1.addEdge c pid ipid).plugins.map Prod.fst = c.plugins.map Prod.fst := by
  simp only [P1.addEdge, P1.modifyP]
  rw [keys_amod, keys_amod]

theorem getP_addEdge_decomp {c : P1.Ctx} {pid ipid x : String} {px : P1.RPlugin}
    (h : (P1.addEdge c pid ipid).getP x = some px) :
    ∃ p0, c.getP x = some p0 ∧
      px.importedL = (if x = pid then p0.importedL ++ [ipid] else p0.importedL) ∧
      px.importing = (if x = ipid then ptrsetAdd p0.importing pid else p0.importing) ∧
      px.info = p0.info ∧ px.processed = p0.processed ∧ px.state = p0.state := by
  rw [getP_addEdge] at h
  by_cases h1 : x = ipid
  · rw [if_pos h1] at h
    by_cases h2 : x = pid
    · rw [if_pos h2] at h
      cases hg : c.getP x with
      | none => rw [hg] at h; simp at h
      | some p0 =>
        rw [hg] at h
        have h' : some ({ p0 with imported := some (p0.importedL ++ [ipid]), importing := ptrsetAdd p0.importing pid } : P1.RPlugin) = some px := h
        cases h'
        refine ⟨p0, rfl, ?_, ?_, rfl, rfl, rfl⟩
        · simp [if_pos h2, P1.RPlugin.importedL]
        · simp [if_pos h1]
    · rw [if_neg h2] at h
      cases hg : c.getP x with
      | none => rw [hg] at h; simp at h
      | some p0 =>
        rw [hg] at h
        have h' : some ({ p0 with importing := ptrsetAdd p0.importing pid } : P1.RPlugin) = some px := h
        cases h'
        refine ⟨p0, rfl, ?_, ?_, rfl, rfl, rfl⟩
        · simp [if_neg h2, P1.RPlugin.importedL]
        · simp [if_pos h1]
  · rw [if_neg h1] at h
    by_cases h2 : x = pid
    · rw [if_pos h2] at h
      cases hg : c.getP x with
      | none => rw [hg] at h; simp at h
      | some p0 =>
        rw [hg] at h
        have h' : some ({ p0 with imported := some (p0.importedL ++ [ipid]) } : P1.RPlugin) = some px := h
        cases h'
        refine ⟨p0, rfl, ?_, ?_, rfl, rfl, rfl⟩
        · simp [if_pos h2, P1.RPlugin.importedL]
        · simp [if_neg h1]
    · rw [if_neg h2] at h
      refine ⟨px, h, ?_, ?_, rfl, rfl, rfl⟩
      · simp [if_neg h2]
      · simp [if_neg h1]

theorem getP_addEdge_pid {c : P1.Ctx} {pid ipid : String} {p : P1.RPlugin}
    (hp : c.getP pid = some p) :
    ∃ pn, (P1.addEdge c pid ipid).getP pid = some pn ∧
      pn.importedL = p.importedL ++ [ipid] ∧ pn.importing =
        (if pid = ipid then ptrsetAdd p.importing pid else p.importing) ∧
      pn.processed = p.processed ∧ pn.state = p.state ∧ pn.info = p.info := by
  rw [getP_addEdge]
  by_cases h1 : pid = ipid
  · rw [if_pos h1, if_pos rfl, hp]
    refine ⟨_, rfl, ?_, ?_, rfl, rfl, rfl⟩
    · simp [P1.RPlugin.importedL]
    · rw [if_pos h1]
  · rw [if_neg h1, if_pos rfl, hp]
    refine ⟨_, rfl, ?_, ?_, rfl, rfl, rfl⟩
    · simp [P1.RPlugin.importedL]
    · rw [if_neg h1]

theorem addEdge_inv {c : P1.Ctx} {pid ipid : String} {p q : P1.RPlugin}
    (hi : P1.Inv c) (hp : c.getP pid = some p) (hq : c.getP ipid = some q)
    (hfresh : ipid ∉ p.importedL) :
    P1.Inv (P1.addEdge c pid ipid) := by
  obtain ⟨hnd, hent, hsym⟩ := hi
  refine ⟨?_, ?_, ?_⟩
  · rw [keys_addEdge]; exact hnd
  · intro x px hx
    obtain ⟨p0, hg0, hI, hN, hInfo, _, _⟩ := getP_addEdge_decomp hx
    obtain ⟨e1, e2, e3⟩ := hent x p0 hg0
    refine ⟨?_, ?_, ?_⟩
    · rw [hI]
      by_cases h2 : x = pid
      · rw [if_pos h2]
        subst h2
        rw [hp] at hg0
        cases hg0
        simp [List.nodup_append, e1, hfresh]
      · rw [if_neg h2]; exact e1
    · rw [hN]
      by_cases h1 : x = ipid
      · rw [if_pos h1]; exact nodup_ptrsetAdd pid e2
      · rw [if_neg h1]; exact e2
    · rw [hInfo]; exact e3
  · intro a pa b qb ha hb
    obtain ⟨pa0, hga, hIa, _, _, _, _⟩ := getP_addEdge_decomp ha
    obtain ⟨qb0, hgb, _, hNb, _, _, _⟩ := getP_addEdge_decomp hb
    rw [hIa, hNb]
    have hs0 := hsym a pa0 b qb0 hga hgb
    by_cases hap : a = pid
    · rw [if_pos hap]
      by_cases hbi : b = ipid
      · rw [if_pos hbi]
        subst hap
        subst hbi
        simp [List.mem_append, mem_ptrsetAdd_iff]
      · rw [if_neg hbi]
        subst hap
        simp only [List.mem_append, List.mem_singleton]
        constructor
        · rintro (hm | rfl)
          · exact hs0.mp hm
          · exact absurd rfl hbi
        · intro hm
          exact Or.inl (hs0.mpr hm)
    · rw [if_neg hap]
      by_cases hbi : b = ipid
      · rw [if_pos hbi]
        rw [mem_ptrsetAdd_iff]
        constructor
        · intro hm
          exact Or.inl (hs0.mp hm)
        · rintro (hm | rfl)
          · exact hs0.mpr hm
          · exact absurd rfl hap
      · rw [if_neg hbi]; exact hs0

theorem dropHeadEdge_eq {c : P1.Ctx} {pid ipid : String} {c2 : P1.Ctx}
    (hd : P1.dropHeadEdge c pid ipid = some c2) :
    c2 = P1.modifyP (P1.modifyP c ipid (fun q => { q with importing := ptrsetRemove q.importing pid }))
        pid (fun p => { p with imported := some p.importedL.tail }) := by
  unfold P1.dropHeadEdge at hd
  cases hg : c.getP ipid with
  | none => rw [hg] at hd; simp at hd
  | some q =>
    rw [hg] at hd
    simp only [Option.some.injEq] at hd
    exact hd.symm

theorem getP_dropHeadEdge {c : P1.Ctx} {pid ipid : String} {c2 : P1.Ctx}
    (hd : P1.dropHeadEdge c pid ipid = some c2) (x : String) :
    c2.getP x =
      if x = pid then
        ((if x = ipid then
            (c.getP x).map (fun q => { q with importing := ptrsetRemove q.importing pid })
          else c.getP x).map
          (fun p => { p with imported := some p.importedL.tail }))
      else if x = ipid then
        (c.getP x).map (fun q => { q with importing := ptrsetRemove q.importing pid })
      else c.getP x := by
  rw [dropHeadEdge_eq hd]
  simp only [getP_modifyP]

theorem keys_dropHeadEdge {c : P1.Ctx} {pid ipid : String} {c2 : P1.Ctx}
    (hd : P1.dropHeadEdge c pid ipid = some c2) :
    c2.plugins.map Prod.fst = c.plugins.map Prod.fst := by
  rw [dropHeadEdge_eq hd]
  simp only [P1.modifyP]
  rw [keys_amod, keys_amod]

theorem getP_dropHeadEdge_decomp {c : P1.Ctx} {pid ipid x : String} {c2 : P1.Ctx} {px : P1.RPlugin}
    (hd : P1.dropHeadEdge c pid ipid = some c2) (h : c2.getP x = some px) :
    ∃ p0, c.getP x = some p0 ∧
      px.imported = (if x = pid then some p0.importedL.tail else p0.imported) ∧
      px.importing = (if x = ipid then ptrsetRemove p0.importing pid else p0.importing) ∧
      px.info = p0.info ∧ px.processed = p0.processed ∧ px.state = p0.state := by
  rw [getP_dropHeadEdge hd] at h
  by_cases h2 : x = pid
  · rw [if_pos h2] at h
    by_cases h1 : x = ipid
    · rw [if_pos h1] at h
      cases hg : c.getP x with
      | none => rw [hg] at h; simp at h
      | some p0 =>
        rw [hg] at h
        have h' : some ({ p0 with importing := ptrsetRemove p0.importing pid, imported := some p0.importedL.tail } : P1.RPlugin) = some px := h
        cases h'
        refine ⟨p0, rfl, ?_, ?_, rfl, rfl, rfl⟩
        · simp [if_pos h2]
        · simp [if_pos h1]
    · rw [if_neg h1] at h
      cases hg : c.getP x with
      | none => rw [hg] at h; simp at h
      | some p0 =>
        rw [hg] at h
        have h' : some ({ p0 with imported := some p0.importedL.tail } : P1.RPlugin) = some px := h
        cases h'
        refine ⟨p0, rfl, ?_, ?_, rfl, rfl, rfl⟩
        · simp [if_pos h2]
        · simp [if_neg h1]
  · rw [if_neg h2] at h
    by_cases h1 : x = ipid
    · rw [if_pos h1] at h
      cases hg : c.getP x with
      | none => rw [hg] at h; simp at h
      | some p0 =>
        rw [hg] at h
        have h' : some ({ p0 with importing := ptrsetRemove p0.importing pid } : P1.RPlugin) = some px := h
        cases h'
        refine ⟨p0, rfl, ?_, ?_, rfl, rfl, rfl⟩
        · simp [if_neg h2]
        · simp [if_pos h1]
    · rw [if_neg h1] at h
      refine ⟨px, h, ?_, ?_, rfl, rfl, rfl⟩
      · simp [if_neg h2]
      · simp [if_neg h1]

theorem getP_dropHeadEdge_pid {c : P1.Ctx} {pid ipid : String} {c2 : P1.Ctx} {p : P1.RPlugin}
    (hd : P1.dropHeadEdge c pid ipid = some c2) (hp : c.getP pid = some p) :
    ∃ pn, c2.getP pid = some pn ∧ pn.imported = some p.importedL.tail ∧
      pn.processed = p.processed ∧ pn.state = p.state ∧ pn.info = p.info := by
  rw [getP_dropHeadEdge hd, if_pos rfl]
  by_cases h1 : pid = ipid
  · rw [if_pos h1, hp]
    exact ⟨_, rfl, rfl, rfl, rfl, rfl⟩
  · rw [if_neg h1, hp]
    exact ⟨_, rfl, rfl, rfl, rfl, rfl⟩

theorem dropHead_inv {c : P1.Ctx} {pid ipid : String} {p : P1.RPlugin} {rest : List String}
    {c2 : P1.Ctx} (hi : P1.Inv c) (hp : c.getP pid = some p)
    (hIL : p.importedL = ipid :: rest) (hd : P1.dropHeadEdge c pid ipid = some c2) :
    P1.Inv c2 := by
  obtain ⟨hnd, hent, hsym⟩ := hi
  have hpnd : p.importedL.Nodup := (hent pid p hp).1
  rw [hIL] at hpnd
  have hheadfresh : ipid ∉ rest := (List.nodup_cons.mp hpnd).1
  refine ⟨?_, ?_, ?_⟩
  · rw [keys_dropHeadEdge hd]; exact hnd
  · intro x px hx
    obtain ⟨p0, hg0, hI, hN, hInfo, _, _⟩ := getP_dropHeadEdge_decomp hd hx
    obtain ⟨e1, e2, e3⟩ := hent x p0 hg0
    refine ⟨?_, ?_, ?_⟩
    · have hpx : px.importedL = (if x = pid then p0.importedL.tail else p0.importedL) := by
        by_cases h2 : x = pid
        · rw [if_pos h2]
          rw [if_pos h2] at hI
          simp [P1.RPlugin.importedL, hI]
        · rw [if_neg h2]
          rw [if_neg h2] at hI
          simp [P1.RPlugin.importedL, hI]
      rw [hpx]
      by_cases h2 : x = pid
      · rw [if_pos h2]; exact e1.sublist (List.tail_sublist _)
      · rw [if_neg h2]; exact e1
    · rw [hN]
      by_cases h1 : x = ipid
      · rw [if_pos h1]; exact nodup_ptrsetRemove pid e2
      · rw [if_neg h1]; exact e2
    · rw [hInfo]; exact e3
  · intro a pa b qb ha hb
    obtain ⟨pa0, hga, hIa, _, _, _, _⟩ := getP_dropHeadEdge_decomp hd ha
    obtain ⟨qb0, hgb, _, hNb, _, _, _⟩ := getP_dropHeadEdge_decomp hd hb
    have hpa : pa.importedL = (if a = pid then pa0.importedL.tail else pa0.importedL) := by
      by_cases h2 : a = pid
      · rw [if_pos h2]
        rw [if_pos h2] at hIa
        simp [P1.RPlugin.importedL, hIa]
      · rw [if_neg h2]
        rw [if_neg h2] at hIa
        simp [P1.RPlugin.importedL, hIa]
    have hbnd : qb0.importing.Nodup := (hent b qb0 hgb).2.1
    have hs0 := hsym a pa0 b qb0 hga hgb
    rw [hpa, hNb]
    by_cases hap : a = pid
    · rw [if_pos hap]
      have hpa0 : pa0 = p := by
        rw [hap, hp] at hga
        exact (Option.some.injEq _ _).mp hga.symm ▸ rfl
      by_cases hbi : b = ipid
      · rw [if_pos hbi]
        subst hap
        subst hbi
        rw [hp] at hga
        cases hga
        rw [hIL]
        simp only [List.tail_cons]
        rw [mem_ptrsetRemove_iff _ _ hbnd]
        simp [hheadfresh]
      · rw [if_neg hbi]
        subst hap
        rw [hp] at hga
        cases hga
        rw [hIL] at hs0 ⊢
        simp only [List.tail_cons]
        rw [← hs0]
        simp [List.mem_cons, Ne.symm hbi]
        intro hbe
        exact absurd hbe hbi
    · rw [if_neg hap]
      by_cases hbi : b = ipid
      · rw [if_pos hbi]
        rw [mem_ptrsetRemove_iff _ _ hbnd]
        constructor
        · intro hm
          exact ⟨hs0.mp hm, hap⟩
        · rintro ⟨hm, _⟩
          exact hs0.mpr hm
      · rw [if_neg hbi]; exact hs0

theorem frame_refl (c : P1.Ctx) : P1.Frame c c :=
  fun x px hx hpr => ⟨px, hx, rfl, hpr, rfl, rfl⟩

theorem frame_trans {a b c : P1.Ctx} (h1 : P1.Frame a b) (h2 : P1.Frame b c) :
    P1.Frame a c := by
  intro x px hx hpr
  obtain ⟨p1, hg1, hi1, hp1, hs1, hn1⟩ := h1 x px hx hpr
  obtain ⟨p2, hg2, hi2, hp2, hs2, hn2⟩ := h2 x p1 hg1 hp1
  exact ⟨p2, hg2, hi2.trans hi1, hp2, hs2.trans hs1, hn2.trans hn1⟩

theorem frame_plugins_eq {c c1 : P1.Ctx} (h : c1.plugins = c.plugins) : P1.Frame c c1 := by
  intro x px hx hpr
  refine ⟨px, ?_, rfl, hpr, rfl, rfl⟩
  unfold P1.Ctx.getP
  rw [h]
  exact hx

theorem frame_modifyP_of {c : P1.Ctx} {k : String} {f : P1.RPlugin → P1.RPlugin}
    (hf : ∀ px, c.getP k = some px → px.processed = true →
      (f px).importedL = px.importedL ∧ (f px).processed = true ∧
      (f px).state = px.state ∧ (f px).info = px.info) :
    P1.Frame c (P1.modifyP c k f) := by
  intro x px hx hpr
  by_cases hk : x = k
  · subst hk
    obtain ⟨e1, e2, e3, e4⟩ := hf px hx hpr
    refine ⟨f px, ?_, e1, e2, e3, e4⟩
    rw [P1.getP_modifyP_self, hx]
    rfl
  · refine ⟨px, ?_, rfl, hpr, rfl, rfl⟩
    rw [P1.getP_modifyP_ne _ _ _ _ hk]
    exact hx

theorem frameX_of_frame {pid : String} {c c1 : P1.Ctx} (h : P1.Frame c c1) :
    P1.FrameX pid c c1 :=
  fun x px _ hx hpr => h x px hx hpr

theorem frameX_trans {pid : String} {a b c : P1.Ctx} (h1 : P1.FrameX pid a b)
    (h2 : P1.FrameX pid b c) : P1.FrameX pid a c := by
  intro x px hne hx hpr
  obtain ⟨p1, hg1, hi1, hp1, hs1, hn1⟩ := h1 x px hne hx hpr
  obtain ⟨p2, hg2, hi2, hp2, hs2, hn2⟩ := h2 x p1 hne hg1 hp1
  exact ⟨p2, hg2, hi2.trans hi1, hp2, hs2.trans hs1, hn2.trans hn1⟩

theorem frameX_plugins_eq {pid : String} {c c1 : P1.Ctx} (h : c1.plugins = c.plugins) :
    P1.FrameX pid c c1 :=
  fun x px _ hx hpr => frame_plugins_eq h x px hx hpr

theorem frameX_addEdge (c : P1.Ctx) (pid ipid : String) :
    P1.FrameX pid c (P1.addEdge c pid ipid) := by
  intro x px hne hx hpr
  rw [getP_addEdge, if_neg hne]
  by_cases h1 : x = ipid
  · rw [if_pos h1, hx]
    exact ⟨_, rfl, rfl, hpr, rfl, rfl⟩
  · rw [if_neg h1, hx]
    exact ⟨px, rfl, rfl, hpr, rfl, rfl⟩

theorem frameX_modifyP_pid {pid : String} {c : P1.Ctx} {f : P1.RPlugin → P1.RPlugin} :
    P1.FrameX pid c (P1.modifyP c pid f) := by
  intro x px hne hx hpr
  refine ⟨px, ?_, rfl, hpr, rfl, rfl⟩
  rw [P1.getP_modifyP_ne _ _ _ _ hne]
  exact hx

theorem frameF_refl (c : P1.Ctx) : P1.FrameF c c :=
  fun x px hx hpr => ⟨px, hx, rfl, hpr, rfl, rfl⟩

theorem frameFX_of_frameF {pid : String} {c c1 : P1.Ctx} (h : P1.FrameF c c1) :
    P1.FrameFX pid c c1 :=
  fun x px _ hx hpr => h x px hx hpr

theorem frameFX_trans {pid : String} {a b c : P1.Ctx} (h1 : P1.FrameFX pid a b)
    (h2 : P1.FrameFX pid b c) : P1.FrameFX pid a c := by
  intro x px hne hx hpr
  obtain ⟨p1, hg1, hi1, hp1, hs1, hn1⟩ := h1 x px hne hx hpr
  obtain ⟨p2, hg2, hi2, hp2, hs2, hn2⟩ := h2 x p1 hne hg1 hp1
  exact ⟨p2, hg2, hi2.trans hi1, hp2, hs2.trans hs1, hn2.trans hn1⟩

theorem frameFX_modifyP_pid {pid : String} {c : P1.Ctx} {f : P1.RPlugin → P1.RPlugin} :
    P1.FrameFX pid c (P1.modifyP c pid f) := by
  intro x px hne hx hpr
  refine ⟨px, ?_, rfl, hpr, rfl, rfl⟩
  rw [P1.getP_modifyP_ne _ _ _ _ hne]
  exact hx

theorem frameFX_dropHeadEdge {c : P1.Ctx} {pid ipid : String} {c2 : P1.Ctx}
    (hd : P1.dropHeadEdge c pid ipid = some c2) : P1.FrameFX pid c c2 := by
  intro x px hne hx hpr
  rw [getP_dropHeadEdge hd, if_neg hne]
  by_cases h1 : x = ipid
  · rw [if_pos h1, hx]
    exact ⟨_, rfl, rfl, hpr, rfl, rfl⟩
  · rw [if_neg h1, hx]
    exact ⟨px, rfl, rfl, hpr, rfl, rfl⟩

theorem pc_modifyP {c : P1.Ctx} {k : String} {f : P1.RPlugin → P1.RPlugin}
    (hpc : P1.Pc c)
    (hf : ∀ p', c.getP k = some p' → (f p').processed = false → (f p').state.idx < 2 →
      (f p').importedL = []) :
    P1.Pc (P1.modifyP c k f) := by
  intro x px hgx hpr hstx
  by_cases hx : x = k
  · subst hx
    rw [P1.getP_modifyP_self] at hgx
    cases hg : c.getP x with
    | none => rw [hg] at hgx; simp at hgx
    | some p' =>
      rw [hg] at hgx
      have hgx2 : some (f p') = some px := hgx
      cases hgx2
      exact hf p' hg hpr hstx
  · rw [P1.getP_modifyP_ne _ _ _ _ hx] at hgx
    exact hpc x px hgx hpr hstx

theorem pc_plugins_eq {c c1 : P1.Ctx} (h : c1.plugins = c.plugins) (hpc : P1.Pc c) :
    P1.Pc c1 := by
  intro x px hgx hpr hstx
  unfold P1.Ctx.getP at hgx
  rw [h] at hgx
  exact hpc x px hgx hpr hstx

theorem pc_addEdge {c : P1.Ctx} {pid ipid : String} {p : P1.RPlugin}
    (hpc : P1.Pc c) (hp : c.getP pid = some p) (hproc : p.processed = true) :
    P1.Pc (P1.addEdge c pid ipid) := by
  intro x px hgx hpr hstx
  obtain ⟨p0, hg0, hI, _, _, hPr, hSt⟩ := getP_addEdge_decomp hgx
  by_cases h2 : x = pid
  · subst h2
    rw [hp] at hg0
    cases hg0
    rw [hPr, hproc] at hpr
    exact absurd hpr (by simp)
  · rw [hI, if_neg h2]
    exact hpc x p0 hg0 (hPr ▸ hpr) (hSt ▸ hstx)

theorem rpi_ok_some {c : P1.Ctx} {imp : P1.Import} {t : String}
    (h : P1.resolve_plugin_import c imp = .ok (some t)) :
    t = imp.pluginId ∧ ∃ q, c.getP imp.pluginId = some q := by
  cases hg : c.getP imp.pluginId with
  | none =>
    cases hv : imp.version with
    | none =>
      simp only [P1.resolve_plugin_import, hg, hv] at h
      by_cases ho : imp.optional = true <;> simp [ho] at h
    | some rv =>
      simp only [P1.resolve_plugin_import, hg, hv] at h
      by_cases ho : imp.optional = true <;> simp [ho] at h
  | some q =>
    cases hv : imp.version with
    | none =>
      simp only [P1.resolve_plugin_import, hg, hv] at h
      simp at h
      exact ⟨h.symm, q, rfl⟩
    | some rv =>
      simp only [P1.resolve_plugin_import, hg, hv] at h
      by_cases hvm : P1.vermismatch q.info.version rv imp.vmatch = true
      · simp [hvm] at h
      · simp [hvm] at h
        exact ⟨h.symm, q, rfl⟩

theorem runtime_fields {p : P1.RPlugin} {st : Status} {p1 : P1.RPlugin}
    (h : P1.resolve_plugin_runtime p = (st, p1)) :
    p1.imported = p.imported ∧ p1.importing = p.importing ∧ p1.info = p.info ∧
      p1.processed = p.processed ∧ p1.state = p.state := by
  unfold P1.resolve_plugin_runtime P1.unresolve_plugin_runtime at h
  by_cases h1 : p.info.hasLib = false
  · rw [if_pos h1] at h
    cases h
    exact ⟨rfl, rfl, rfl, rfl, rfl⟩
  · rw [if_neg h1] at h
    by_cases h2 : p.info.libOpens = false
    · rw [if_pos h2] at h
      cases h
      exact ⟨rfl, rfl, rfl, rfl, rfl⟩
    · rw [if_neg h2] at h
      simp only [] at h
      by_cases h3 : (p.info.hasStartName && !p.info.startSymOk) = true
      · rw [if_pos h3] at h
        cases h
        exact ⟨rfl, rfl, rfl, rfl, rfl⟩
      · rw [if_neg h3] at h
        by_cases h4 : (p.info.hasStopName && !p.info.stopSymOk) = true
        · rw [if_pos h4] at h
          cases h
          exact ⟨rfl, rfl, rfl, rfl, rfl⟩
        · rw [if_neg h4] at h
          cases h
          exact ⟨rfl, rfl, rfl, rfl, rfl⟩

theorem failedLoop_main (recFn : P1.Ctx → String → Option P1.Ctx)
    (hrec : ∀ c q c1, P1.Inv c → recFn c q = some c1 → P1.Inv c1 ∧ P1.FrameF c c1) :
    ∀ (n : Nat) (c : P1.Ctx) (pid : String) (c1 : P1.Ctx) (p : P1.RPlugin),
      P1.Inv c → c.getP pid = some p → p.processed = false →
      P1.failedLoop recFn n c pid = some c1 → P1.Inv c1 ∧ P1.FrameFX pid c c1 := by
  intro n
  induction n with
  | zero => intro c pid c1 p _ _ _ h; simp [P1.failedLoop] at h
  | succ n ih =>
    intro c pid c1 p hi hp hproc h
    simp only [P1.failedLoop] at h
    rw [hp] at h
    simp only [] at h
    cases hI : p.imported with
    | none => rw [hI] at h; simp at h
    | some l =>
      cases l with
      | nil =>
        rw [hI] at h
        simp only [] at h
        cases h
        constructor
        · refine inv_of_shp (shp_modifyP ?_) hi
          intro q hq
          rw [hp] at hq
          cases hq
          simp [P1.eproj, P1.RPlugin.importedL, hI]
        · exact frameFX_modifyP_pid
      | cons ipid rest =>
        rw [hI] at h
        simp only [] at h
        cases hr : recFn c ipid with
        | none => rw [hr] at h; simp at h
        | some cA =>
          rw [hr] at h
          simp only [] at h
          obtain ⟨hiA, hfA⟩ := hrec c ipid cA hi hr
          obtain ⟨pA, hgA, hiPA, hprA, hstA, hinfA⟩ := hfA pid p hp hproc
          cases hd : P1.dropHeadEdge cA pid ipid with
          | none => rw [hd] at h; simp at h
          | some cB =>
            rw [hd] at h
            have hILA : pA.importedL = ipid :: rest := by
              rw [P1.RPlugin.importedL, hiPA, hI]
              rfl
            have hiB : P1.Inv cB := dropHead_inv hiA hgA hILA hd
            obtain ⟨pB, hgB, hiPB, hprB, hstB, hinfB⟩ := getP_dropHeadEdge_pid hd hgA
            have hprB2 : pB.processed = false := by rw [hprB, hprA]
            obtain ⟨hi1, hfx1⟩ := ih cB pid c1 pB hiB hgB hprB2 h
            exact ⟨hi1, frameFX_trans (frameFX_trans (frameFX_of_frameF hfA)
              (frameFX_dropHeadEdge hd)) hfx1⟩

theorem failed_main : ∀ (fuel : Nat) (c : P1.Ctx) (pid : String) (c1 : P1.Ctx),
    P1.Inv c → P1.resolve_plugin_failed_rec fuel c pid = some c1 →
    P1.Inv c1 ∧ P1.FrameF c c1 := by
  intro fuel
  induction fuel with
  | zero => intro c pid c1 _ h; simp [P1.resolve_plugin_failed_rec] at h
  | succ fuel ih =>
    intro c pid c1 hi h
    simp only [P1.resolve_plugin_failed_rec] at h
    cases hp : c.getP pid with
    | none => rw [hp] at h; simp at h
    | some p =>
      rw [hp] at h
      simp only [] at h
      by_cases hproc : p.processed = false
      · rw [if_pos hproc] at h
        cases h
        exact ⟨hi, frameF_refl c⟩
      · rw [if_neg hproc] at h
        have hproc2 : p.processed = true := by
          cases hb : p.processed
          · exact absurd hb hproc
          · rfl
        by_cases hst : p.state.idx < 2
        · rw [if_pos hst] at h
          have hiC : P1.Inv (P1.modifyP c pid (fun q => { q with processed := false })) :=
            inv_of_shp (shp_modifyP (fun q _ => rfl)) hi
          have hgC : (P1.modifyP c pid (fun q => { q with processed := false })).getP pid
              = some { p with processed := false } := by
            rw [P1.getP_modifyP_self, hp]
            rfl
          obtain ⟨hi1, hfx⟩ := failedLoop_main _ (fun c q c1 hq hr => ih c q c1 hq hr)
            (fuel + 1) _ pid c1 _ hiC hgC rfl h
          refine ⟨hi1, ?_⟩
          intro x px hgx hprx
          have hne : x ≠ pid := by
            intro he
            subst he
            rw [hp] at hgx
            cases hgx
            rw [hprx] at hproc2
            simp at hproc2
          have hgx2 : (P1.modifyP c pid (fun q => { q with processed := false })).getP x
              = some px := by
            rw [P1.getP_modifyP_ne _ _ _ _ hne]
            exact hgx
          exact hfx x px hne hgx2 hprx
        · rw [if_neg hst] at h
          cases h
          refine ⟨inv_of_shp (shp_modifyP (fun q _ => rfl)) hi, ?_⟩
          intro x px hgx hprx
          have hne : x ≠ pid := by
            intro he
            subst he
            rw [hp] at hgx
            cases hgx
            rw [hprx] at hproc2
            simp at hproc2
          refine ⟨px, ?_, rfl, hprx, rfl, rfl⟩
          rw [P1.getP_modifyP_ne _ _ _ _ hne]
          exact hgx

theorem loopA_main (recFn : P1.Ctx → String → Option (Status × P1.Ctx))
    (hrec : ∀ c q st c1, P1.Inv c → P1.Pc c → recFn c q = some (st, c1) →
      P1.Inv c1 ∧ P1.Pc c1 ∧ P1.Frame c c1)
    (pid : String) :
    ∀ (imps : List P1.Import) (c : P1.Ctx) (st : Status) (c1 : P1.Ctx) (p : P1.RPlugin),
      P1.Inv c → P1.Pc c → c.getP pid = some p → p.processed = true →
      (imps.map P1.Import.pluginId).Nodup →
      (∀ i ∈ imps, i.pluginId ∉ p.importedL) →
      P1.importLoopA recFn pid c imps = some (st, c1) →
      P1.Inv c1 ∧ P1.Pc c1 ∧ P1.FrameX pid c c1 ∧
        ∃ p1, c1.getP pid = some p1 ∧ p1.processed = true ∧ p1.state = p.state ∧
          p1.info = p.info := by
  intro imps
  induction imps with
  | nil =>
    intro c st c1 p hi hpc hp hproc _ _ h
    simp only [P1.importLoopA] at h
    cases h
    exact ⟨hi, hpc, fun x px _ hx hpr => ⟨px, hx, rfl, hpr, rfl, rfl⟩, p, hp, hproc, rfl, rfl⟩
  | cons imp rest ihL =>
    intro c st c1 p hi hpc hp hproc hnd hfresh h
    rw [List.map_cons] at hnd
    obtain ⟨hhead, hndrest⟩ := List.nodup_cons.mp hnd
    simp only [P1.importLoopA] at h
    cases hri : P1.resolve_plugin_import c imp with
    | error st' =>
      rw [hri] at h
      simp only [] at h
      cases h
      exact ⟨hi, hpc, fun x px _ hx hpr => ⟨px, hx, rfl, hpr, rfl, rfl⟩, p, hp, hproc, rfl, rfl⟩
    | ok oid =>
      cases oid with
      | none =>
        rw [hri] at h
        simp only [] at h
        exact ihL c st c1 p hi hpc hp hproc hndrest
          (fun i hiM => hfresh i (List.mem_cons_of_mem _ hiM)) h
      | some ipid =>
        obtain ⟨hti, q, hq⟩ := rpi_ok_some hri
        subst hti
        rw [hri] at h
        simp only [] at h
        have hfr : imp.pluginId ∉ p.importedL := hfresh imp (List.mem_cons_self _ _)
        have hiA : P1.Inv (P1.addEdge c pid imp.pluginId) := addEdge_inv hi hp hq hfr
        have hpcA : P1.Pc (P1.addEdge c pid imp.pluginId) := pc_addEdge hpc hp hproc
        obtain ⟨pA, hgA, hILA, hNA, hprA, hstA, hinfA⟩ :=
          @getP_addEdge_pid c pid imp.pluginId p hp
        cases hrc : recFn (P1.addEdge c pid imp.pluginId) imp.pluginId with
        | none => rw [hrc] at h; simp at h
        | some sc =>
          obtain ⟨s, c2⟩ := sc
          rw [hrc] at h
          simp only [] at h
          obtain ⟨hi2, hpc2, hf2⟩ := hrec _ _ _ _ hiA hpcA hrc
          have hprA2 : pA.processed = true := by rw [hprA]; exact hproc
          obtain ⟨p2, hg2, hIL2, hpr2, hst2, hinf2⟩ := hf2 pid pA hgA hprA2
          by_cases hs : s = .ok ∨ s = .okPreliminary
          · rw [if_pos hs] at h
            have hfresh2 : ∀ i ∈ rest, i.pluginId ∉ p2.importedL := by
              intro i hiM
              rw [hIL2, hILA]
              simp only [List.mem_append, List.mem_singleton]
              rintro (hm | he)
              · exact hfresh i (List.mem_cons_of_mem _ hiM) hm
              · exact hhead (he ▸ List.mem_map_of_mem P1.Import.pluginId hiM)
            obtain ⟨hi3, hpc3, hfx3, p3, hg3, hpr3, hst3, hinf3⟩ :=
              ihL c2 st c1 p2 hi2 hpc2 hg2 hpr2 hndrest hfresh2 h
            refine ⟨hi3, hpc3, ?_, p3, hg3, hpr3, ?_, ?_⟩
            · exact frameX_trans (frameX_trans (frameX_addEdge c pid imp.pluginId)
                (frameX_of_frame hf2)) hfx3
            · rw [hst3, hst2, hstA]
            · rw [hinf3, hinf2, hinfA]
          · rw [if_neg hs] at h
            cases h
            refine ⟨hi2, hpc2, ?_, p2, hg2, hpr2, ?_, ?_⟩
            · exact frameX_trans (frameX_addEdge c pid imp.pluginId) (frameX_of_frame hf2)
            · rw [hst2, hstA]
            · rw [hinf2, hinfA]

theorem prel_main : ∀ (fuel : Nat) (c : P1.Ctx) (pid : String) (st : Status) (c1 : P1.Ctx),
    P1.Inv c → P1.Pc c → P1.resolve_plugin_prel_rec fuel c pid = some (st, c1) →
    P1.Inv c1 ∧ P1.Pc c1 ∧ P1.Frame c c1 := by
  intro fuel
  induction fuel with
  | zero => intro c pid st c1 _ _ h; simp [P1.resolve_plugin_prel_rec] at h
  | succ fuel ih =>
    intro c pid st c1 hi hpc h
    simp only [P1.resolve_plugin_prel_rec] at h
    cases hp : c.getP pid with
    | none => rw [hp] at h; simp at h
    | some p =>
      rw [hp] at h
      simp only [] at h
      by_cases h2 : 2 ≤ p.state.idx
      · rw [if_pos h2] at h
        cases h
        exact ⟨hi, hpc, frame_refl c⟩
      · rw [if_neg h2] at h
        by_cases hproc : p.processed = true
        · rw [if_pos hproc] at h
          cases h
          exact ⟨hi, hpc, frame_refl c⟩
        · rw [if_neg hproc] at h
          have hproc0 : p.processed = false := by
            cases hb : p.processed
            · rfl
            · exact absurd hb hproc
          have hIL0 : p.importedL = [] := hpc pid p hp hproc0 (by omega)
          have hiE : P1.Inv (P1.modifyP c pid
              (fun q => { q with processed := true, imported := some [] })) := by
            refine inv_of_shp (shp_modifyP ?_) hi
            intro q hq
            rw [hp] at hq
            cases hq
            have hq2 : ({ p with processed := true, imported := some [] } :
                P1.RPlugin).importedL = [] := by
              simp [P1.RPlugin.importedL]
            simp [P1.eproj, hq2, hIL0]
          have hpcE : P1.Pc (P1.modifyP c pid
              (fun q => { q with processed := true, imported := some [] })) := by
            refine pc_modifyP hpc (fun p' _ hprf _ => ?_)
            exact absurd hprf (by simp)
          have hgE : (P1.modifyP c pid
              (fun q => { q with processed := true, imported := some [] })).getP pid
              = some { p with processed := true, imported := some [] } := by
            rw [P1.getP_modifyP_self, hp]
            rfl
          cases hL : P1.importLoopA (P1.resolve_plugin_prel_rec fuel) pid
              (P1.modifyP c pid (fun q => { q with processed := true, imported := some [] }))
              p.info.imports with
          | none => rw [hL] at h; simp at h
          | some sc2 =>
            obtain ⟨stL, c2⟩ := sc2
            rw [hL] at h
            simp only [] at h
            obtain ⟨hi2, hpc2, hfx2, p2, hg2, hpr2, hst2, hinf2⟩ :=
              loopA_main (P1.resolve_plugin_prel_rec fuel)
                (fun c q st c1 hq hpcq hr => ih c q st c1 hq hpcq hr) pid
                p.info.imports _ stL c2 _ hiE hpcE hgE rfl
                (hi.2.1 pid p hp).2.2 (fun i _ => by simp [P1.RPlugin.importedL]) hL
            have hFrame2 : P1.Frame c c2 := by
              intro x px hgx hprx
              have hne2 : x ≠ pid := by
                intro he
                subst he
                rw [hp] at hgx
                cases hgx
                rw [hprx] at hproc0
                simp at hproc0
              have hgEx : (P1.modifyP c pid
                  (fun q => { q with processed := true, imported := some [] })).getP x
                  = some px := by
                rw [P1.getP_modifyP_ne _ _ _ _ hne2]
                exact hgx
              exact hfx2 x px hne2 hgEx hprx
            by_cases hsne : stL ≠ .ok
            · rw [if_pos hsne] at h
              cases h
              exact ⟨hi2, hpc2, hFrame2⟩
            · rw [if_neg hsne] at h
              cases hg2x : c2.getP pid with
              | none => rw [hg2x] at h; simp at h
              | some p2x =>
                rw [hg2x] at h
                simp only [] at h
                rw [hg2] at hg2x
                have hp2x : p2x = p2 := by
                  cases hg2x
                  rfl
                subst hp2x
                cases hrt : P1.resolve_plugin_runtime p2x with
                | mk st2 p3 =>
                  rw [hrt] at h
                  obtain ⟨hr1, hr2, hr3, hr4, hr5⟩ := runtime_fields hrt
                  have hp3proc : p3.processed = true := by rw [hr4]; exact hpr2
                  have heq : P1.eproj p3 = P1.eproj p2x := by
                    simp [P1.eproj, P1.RPlugin.importedL, hr1, hr2, hr3]
                  cases st2
                  · simp only [] at h
                    cases h
                    refine ⟨?_, ?_, ?_⟩
                    · refine inv_of_shp (shp_plugins_eq rfl) (inv_of_shp (shp_modifyP ?_) hi2)
                      intro q hq
                      rw [hg2] at hq
                      cases hq
                      exact heq
                    · refine pc_plugins_eq rfl (pc_modifyP hpc2 (fun p' _ hprf _ => ?_))
                      have hprf2 : p3.processed = false := hprf
                      rw [hp3proc] at hprf2
                      exact absurd hprf2 (by simp)
                    · intro x px hgx hprx
                      obtain ⟨pxL, hgxL, e1, e2, e3, e4⟩ := hFrame2 x px hgx hprx
                      have hne2 : x ≠ pid := by
                        intro he
                        subst he
                        rw [hp] at hgx
                        cases hgx
                        rw [hprx] at hproc0
                        simp at hproc0
                      refine ⟨pxL, ?_, e1, e2, e3, e4⟩
                      have hdeq : (P1.deliver (P1.modifyP c2 pid
                          (fun _ => { p3 with state := PState.resolved }))
                          ⟨pid, p2x.state, PState.resolved⟩).getP x
                          = (P1.modifyP c2 pid
                          (fun _ => { p3 with state := PState.resolved })).getP x := rfl
                      rw [hdeq, P1.getP_modifyP_ne _ _ _ _ hne2]
                      exact hgxL
                  all_goals {
                    simp only [] at h
                    cases h
                    refine ⟨?_, ?_, ?_⟩
                    · refine inv_of_shp (shp_modifyP ?_) hi2
                      intro q hq
                      rw [hg2] at hq
                      cases hq
                      exact heq
                    · refine pc_modifyP hpc2 (fun p' _ hprf _ => ?_)
                      have hprf2 : p3.processed = false := hprf
                      rw [hp3proc] at hprf2
                      exact absurd hprf2 (by simp)
                    · intro x px hgx hprx
                      obtain ⟨pxL, hgxL, e1, e2, e3, e4⟩ := hFrame2 x px hgx hprx
                      have hne2 : x ≠ pid := by
                        intro he
                        subst he
                        rw [hp] at hgx
                        cases hgx
                        rw [hprx] at hproc0
                        simp at hproc0
                      refine ⟨pxL, ?_, e1, e2, e3, e4⟩
                      rw [P1.getP_modifyP_ne _ _ _ _ hne2]
                      exact hgxL }

theorem unresolveLoop_inv (recFn : P1.Ctx → String → Option P1.Ctx)
    (hrec : ∀ c q c1, P1.Inv c → recFn c q = some c1 → P1.Inv c1) :
    ∀ (n : Nat) (c : P1.Ctx) (pid : String) (c1 : P1.Ctx),
      P1.Inv c → P1.unresolveImportingLoop recFn n c pid = some c1 → P1.Inv c1 := by
  intro n
  induction n with
  | zero => intro c pid c1 _ h; simp [P1.unresolveImportingLoop] at h
  | succ n ih =>
    intro c pid c1 hi h
    simp only [P1.unresolveImportingLoop] at h
    cases hp : c.getP pid with
    | none => rw [hp] at h; simp at h
    | some p =>
      rw [hp] at h
      simp only [] at h
      cases hN : p.importing with
      | nil =>
        rw [hN] at h
        simp only [] at h
        cases h
        exact hi
      | cons qd tl =>
        rw [hN] at h
        simp only [] at h
        cases hr : recFn c qd with
        | none => rw [hr] at h; simp at h
        | some cA =>
          rw [hr] at h
          exact ih cA pid c1 (hrec c qd cA hi hr) h

theorem clearLoop_inv : ∀ (n : Nat) (c : P1.Ctx) (pid : String) (c1 : P1.Ctx),
    P1.Inv c → P1.clearImportedLoop n c pid = some c1 → P1.Inv c1 := by
  intro n
  induction n with
  | zero => intro c pid c1 _ h; simp [P1.clearImportedLoop] at h
  | succ n ih =>
    intro c pid c1 hi h
    simp only [P1.clearImportedLoop] at h
    cases hp : c.getP pid with
    | none => rw [hp] at h; simp at h
    | some p =>
      rw [hp] at h
      simp only [] at h
      cases hI : p.imported with
      | none => rw [hI] at h; simp at h
      | some l =>
        cases l with
        | nil =>
          rw [hI] at h
          simp only [] at h
          cases h
          exact hi
        | cons ipid rest =>
          rw [hI] at h
          simp only [] at h
          cases hd : P1.dropHeadEdge c pid ipid with
          | none => rw [hd] at h; simp at h
          | some c2 =>
            rw [hd] at h
            have hIL : p.importedL = ipid :: rest := by
              rw [P1.RPlugin.importedL, hI]
              rfl
            exact ih c2 pid c1 (dropHead_inv hi hp hIL hd) h

theorem unresolve_rec_inv : ∀ (fuel : Nat) (c : P1.Ctx) (pid : String) (c1 : P1.Ctx),
    P1.Inv c → P1.unresolve_plugin_rec fuel c pid = some c1 → P1.Inv c1 := by
  intro fuel
  induction fuel with
  | zero => intro c pid c1 _ h; simp [P1.unresolve_plugin_rec] at h
  | succ fuel ih =>
    intro c pid c1 hi h
    simp only [P1.unresolve_plugin_rec] at h
    cases hp : c.getP pid with
    | none => rw [hp] at h; simp at h
    | some p =>
      rw [hp] at h
      simp only [] at h
      by_cases h2 : p.state.idx < 2
      · rw [if_pos h2] at h
        cases h
        exact hi
      · rw [if_neg h2] at h
        by_cases hpr : p.processed = true
        · rw [if_pos hpr] at h
          cases h
          exact hi
        · rw [if_neg hpr] at h
          cases hL : P1.unresolveImportingLoop (P1.unresolve_plugin_rec fuel) (fuel + 1)
              (P1.modifyP c pid (fun q => { q with processed := true })) pid with
          | none => rw [hL] at h; simp at h
          | some c2 =>
            rw [hL] at h
            simp only [] at h
            have hiM : P1.Inv (P1.modifyP c pid (fun q => { q with processed := true })) :=
              inv_of_shp (shp_modifyP (fun q _ => rfl)) hi
            have hi2 : P1.Inv c2 :=
              unresolveLoop_inv _ (fun c q c1 hq hr => ih c q c1 hq hr) (fuel + 1) _ pid c2
                hiM hL
            have hi3 : P1.Inv (P1.modifyP c2 pid P1.unresolve_plugin_runtime) :=
              inv_of_shp (shp_modifyP (fun q _ => rfl)) hi2
            cases hC : P1.clearImportedLoop (fuel + 1)
                (P1.modifyP c2 pid P1.unresolve_plugin_runtime) pid with
            | none => rw [hC] at h; simp at h
            | some c4 =>
              rw [hC] at h
              cases h
              have hi4 : P1.Inv c4 := clearLoop_inv (fuel + 1) _ pid c4 hi3 hC
              exact inv_of_shp (shp_modifyP (fun q _ => rfl))
                (inv_of_shp (shp_evTrans c4 pid .installed) hi4)

theorem unresolve_inv {fuel : Nat} {c : P1.Ctx} {pid : String} {c1 : P1.Ctx}
    (hi : P1.Inv c) (h : P1.unresolve_plugin fuel c pid = some c1) : P1.Inv c1 := by
  unfold P1.unresolve_plugin at h
  cases hs : P1.stop_plugin fuel c pid with
  | none => rw [hs] at h; simp at h
  | some cA =>
    rw [hs] at h
    exact unresolve_rec_inv fuel cA pid c1 (inv_of_shp (stop_shp fuel c pid cA hs) hi) h

theorem plugins_unregisterPointsFrom (pid : String) :
    ∀ (l : List String) (c : P1.Ctx) (i : Nat),
      (P1.unregisterPointsFrom c pid l i).plugins = c.plugins := by
  intro l
  induction l with
  | nil => intro c i; rfl
  | cons gid rest ih =>
    intro c i
    simp only [P1.unregisterPointsFrom]
    rw [ih]
    cases halo : alook c.extPoints gid with
    | none => rfl
    | some ep =>
      simp only []
      by_cases he : ep = (pid, i)
      · rw [if_pos he]
      · rw [if_neg he]

theorem plugins_unregisterExtsFrom (pid : String) :
    ∀ (l : List String) (c : P1.Ctx) (i : Nat),
      (P1.unregisterExtsFrom c pid l i).plugins = c.plugins := by
  intro l
  induction l with
  | nil => intro c i; rfl
  | cons tid rest ih =>
    intro c i
    simp only [P1.unregisterExtsFrom]
    rw [ih]
    cases halo : alook c.extensions tid with
    | none => rfl
    | some el =>
      simp only []
      by_cases he : P1.removeFirstExt el (pid, i) = []
      · rw [if_pos he]
      · rw [if_neg he]

theorem plugins_unregister_extensions (c : P1.Ctx) (d : P1.PluginInfo) :
    (P1.unregister_extensions c d).plugins = c.plugins := by
  unfold P1.unregister_extensions
  rw [plugins_unregisterExtsFrom, plugins_unregisterPointsFrom]

theorem alook_aerase_some {β : Type} {l : List (String × β)} {k x : String} {v : β}
    (hnd : (l.map Prod.fst).Nodup) (h : alook (aerase l k) x = some v) :
    alook l x = some v := by
  by_cases hx : x = k
  · subst hx
    rw [alook_aerase_self l x hnd] at h
    simp at h
  · rw [alook_aerase_ne l k x hx] at h
    exact h

theorem inv_aerase {c : P1.Ctx} (pid : String) (hi : P1.Inv c) :
    P1.Inv { c with plugins := aerase c.plugins pid } := by
  obtain ⟨hnd, hent, hsym⟩ := hi
  refine ⟨?_, ?_, ?_⟩
  · exact hnd.sublist (keys_aerase_sublist c.plugins pid)
  · intro x px hx
    exact hent x px (alook_aerase_some hnd hx)
  · intro a pa b qb ha hb
    exact hsym a pa b qb (alook_aerase_some hnd ha) (alook_aerase_some hnd hb)

theorem uninstall_inv {fuel : Nat} {c : P1.Ctx} {pid : String} {c1 : P1.Ctx}
    (hi : P1.Inv c) (h : P1.uninstall_plugin fuel c pid = some c1) : P1.Inv c1 := by
  unfold P1.uninstall_plugin at h
  cases hp : c.getP pid with
  | none => rw [hp] at h; simp at h
  | some p =>
    rw [hp] at h
    simp only [] at h
    by_cases h0 : p.state.idx ≤ 0
    · rw [if_pos h0] at h
      cases h
      exact hi
    · rw [if_neg h0] at h
      cases hu : P1.unresolve_plugin fuel c pid with
      | none => rw [hu] at h; simp at h
      | some cA =>
        rw [hu] at h
        simp only [] at h
        cases h
        have hiA : P1.Inv cA := unresolve_inv hi hu
        have hiB : P1.Inv (P1.evTrans cA pid .uninstalled) :=
          inv_of_shp (shp_evTrans cA pid .uninstalled) hiA
        have hiC : P1.Inv (P1.unregister_extensions (P1.evTrans cA pid .uninstalled) p.info) :=
          inv_of_shp (shp_plugins_eq (plugins_unregister_extensions _ _)) hiB
        have hiD := inv_aerase pid hiC
        exact inv_of_shp (shp_plugins_eq rfl) hiD

theorem resolve_inv {fuel : Nat} {c : P1.Ctx} {pid : String} {st : Status} {c1 : P1.Ctx}
    (hi : P1.Inv c) (hpc : P1.Pc c) (h : P1.resolve_plugin fuel c pid = some (st, c1)) :
    P1.Inv c1 := by
  unfold P1.resolve_plugin at h
  cases hP : P1.resolve_plugin_prel_rec fuel c pid with
  | none => rw [hP] at h; simp at h
  | some sc =>
    obtain ⟨stp, cp⟩ := sc
    rw [hP] at h
    simp only [] at h
    obtain ⟨hip, hpcp, _⟩ := prel_main fuel c pid stp cp hi hpc hP
    by_cases hs : stp = .ok ∨ stp = .okPreliminary
    · rw [if_pos hs] at h
      cases hC : P1.resolve_plugin_commit_rec fuel cp pid with
      | none => rw [hC] at h; simp at h
      | some c2 =>
        rw [hC] at h
        simp only [] at h
        cases h
        exact inv_of_shp (commit_shp fuel cp pid c1 hC) hip
    · rw [if_neg hs] at h
      cases hF : P1.resolve_plugin_failed_rec fuel cp pid with
      | none => rw [hF] at h; simp at h
      | some c2 =>
        rw [hF] at h
        simp only [] at h
        cases h
        exact (failed_main fuel cp pid c1 hip hF).1

/-- C6: outside of transitions the import edges of registered plug-ins are
mutual inverses — for every pair of registered plug-ins P and Q,
Q ∈ P.imported iff P ∈ Q.importing (`P1.Inv`, together with uniqueness of
the registered identifiers and of the per-record edge lists). Starting from
any rest state (`P1.Inv` plus `P1.Pc`: unvisited unresolved plug-ins carry
no imported edges), resolve_plugin — including its CP_ERR_* failure walk —
unresolve_plugin and uninstall_plugin all preserve the symmetry: both
halves of each dependency edge are recorded together by
resolve_plugin_prel_rec and removed together by resolve_plugin_failed_rec
and unresolve_plugin_rec. -/
theorem import_edges_symmetric (fuel : Nat) (c : P1.Ctx) (pid : String)
    (hi : P1.Inv c) (hpc : P1.Pc c) :
    (∀ st c1, P1.resolve_plugin fuel c pid = some (st, c1) → P1.Inv c1) ∧
    (∀ c1, P1.unresolve_plugin fuel c pid = some c1 → P1.Inv c1) ∧
    (∀ c1, P1.uninstall_plugin fuel c pid = some c1 → P1.Inv c1) :=
  ⟨fun _ c1 h => resolve_inv hi hpc h,
   fun c1 h => unresolve_inv hi h,
   fun c1 h => uninstall_inv hi h⟩

/-- Witness for C6 at the resolved pair b → a: each of the three operations
returns, and its result satisfies the edge-symmetry invariant. -/
theorem import_edges_symmetric_witness :
    (P1.resolve_plugin 6 pairCtx "b").elim False (fun r => P1.Inv r.2) ∧
    (P1.unresolve_plugin 6 pairCtx "b").elim False P1.Inv ∧
    (P1.uninstall_plugin 6 pairCtx "b").elim False P1.Inv := by
  have h := import_edges_symmetric 6 pairCtx "b" (inv_of_check (by decide))
    (pc_of_check (by decide))
  refine ⟨?_, ?_, ?_⟩
  · cases hr : P1.resolve_plugin 6 pairCtx "b" with
    | none =>
      have hs : (P1.resolve_plugin 6 pairCtx "b").isSome = true := by decide
      rw [hr] at hs
      simp at hs
    | some r => exact h.1 r.1 r.2 hr
  · cases hr : P1.unresolve_plugin 6 pairCtx "b" with
    | none =>
      have hs : (P1.unresolve_plugin 6 pairCtx "b").isSome = true := by decide
      rw [hr] at hs
      simp at hs
    | some r => exact h.2.1 r hr
  · cases hr : P1.uninstall_plugin 6 pairCtx "b" with
    | none =>
      have hs : (P1.uninstall_plugin 6 pairCtx "b").isSome = true := by decide
      rw [hr] at hs
      simp at hs
    | some r => exact h.2.2 r hr
